import Mathlib

/-!
Verification of the memory-management, process-lifecycle, and synchronization
core of a 32-bit x86 teaching kernel, against its natural-language
specification.

The development shallowly embeds the C sources:
  - src/kernel/sync.c     (spinlock, blocking semaphore)
  - src/kernel/process.c  (process table, scheduler, fork/exec/exit/wait)
  - src/mm/pmm.c          (physical frame allocator)
  - src/mm/vmm.c          (page-directory cloning, mapping)
  - src/mm/kheap.c        (free-list kernel heap)
  - src/cpu/isr.c         (page-fault / COW handler)

Machine words are modelled as Nat with explicit 32-bit masking where
overflow matters; pointers become addresses (Nat, 0 = NULL); physical
memory becomes explicit state records threaded through each operation.
-/

set_option maxRecDepth 10000

/-! ## Process states (src/kernel/process.h, enum ProcessState) -/

inductive PState where
  | READY
  | RUNNING
  | TERMINATED
  | BLOCKED
  deriving DecidableEq, Repr

/-! ## Spinlock (src/kernel/sync.c, lines 7-20)

The lock consists of a single `locked` word; interrupt enablement is a
separate piece of machine state (the EFLAGS.IF bit), modelled here as the
`intf` field. `spinlock_acquire` executes `cli` and then stores 1 into
`locked`; `spinlock_release` stores 0 and then executes `sti`. -/

structure LockSt where
  locked : Bool
  /-- EFLAGS.IF: true = hardware interrupts enabled. -/
  intf : Bool
  deriving DecidableEq, Repr

def spinlock_init (s : LockSt) : LockSt :=
  { s with locked := false }

def spinlock_acquire (s : LockSt) : LockSt :=
  -- __asm__ volatile("cli"); lock->locked = 1;
  { s with intf := false, locked := true }

def spinlock_release (s : LockSt) : LockSt :=
  -- lock->locked = 0; __asm__ volatile("sti");
  { s with locked := false, intf := true }

/-! ## Blocking semaphore (src/kernel/sync.c, lines 29-90)

State of one semaphore together with the pieces of kernel state its
operations touch: the per-process state table, the current process id, and
the interrupt flag.  The FIFO wait queue (wait_head / wait_tail linked via
the PCBs' wait_next fields) is modelled as a list, head first; appending at
the tail and removing at the head match the pointer manipulation in the
source exactly. -/

structure SemSys where
  /-- sem->value (a C int). -/
  value : Int
  /-- sem->lock.locked. -/
  locked : Bool
  /-- Wait queue contents, head first (wait_head .. wait_tail). -/
  queue : List Nat
  /-- Process state table, indexed by pid. -/
  pstate : Nat → PState
  /-- Pid of the currently running process (current_process). -/
  current : Nat
  /-- EFLAGS.IF. -/
  intf : Bool

def sem_init (s : SemSys) (v : Int) : SemSys :=
  { s with value := v, locked := false, queue := [] }

/-- One round of sem_wait (src/kernel/sync.c lines 36-70): the body of the
outer while(1) loop, up to either the successful return (second component
true) or the point where the caller has enqueued itself, set itself
BLOCKED and called schedule() (second component false; the context switch
itself re-enables interrupts in the next task and is not part of the
semaphore state). -/
def sem_wait (s : SemSys) : SemSys × Bool :=
  -- spinlock_acquire(&sem->lock): cli; locked = 1
  let s := { s with intf := false, locked := true }
  if s.value > 0 then
    -- sem->value--; spinlock_release(&sem->lock); return;
    ({ s with value := s.value - 1, locked := false, intf := true }, true)
  else
    -- enqueue current at the tail (wait_head/wait_tail manipulation)
    let s := { s with queue := s.queue ++ [s.current] }
    -- sem->lock.locked = 0;  (logical release, interrupts stay off)
    let s := { s with locked := false }
    -- current_process->state = PROCESS_BLOCKED; schedule();
    let s := { s with pstate := fun p => if p = s.current then PState.BLOCKED else s.pstate p }
    (s, false)

/-- Modelled from the spec: unblock_process is declared in
src/kernel/process.h and called from sem_signal, but its definition is not
under src/.  Spec 4.6: signal dequeues the head and marks it READY. -/
def unblock_process (st : Nat → PState) (p : Nat) : Nat → PState :=
  fun q => if q = p then PState.READY else st q

/-- sem_signal (src/kernel/sync.c lines 72-90). -/
def sem_signal (s : SemSys) : SemSys :=
  -- spinlock_acquire(&sem->lock)
  let s := { s with intf := false, locked := true }
  -- sem->value++
  let s := { s with value := s.value + 1 }
  -- if (sem->wait_head != 0) dequeue head and unblock it
  let s :=
    match s.queue with
    | [] => s
    | h :: rest => { s with queue := rest, pstate := unblock_process s.pstate h }
  -- spinlock_release(&sem->lock)
  { s with locked := false, intf := true }

/-- The invariant claimed for semaphores (spec section 3):
value is non-negative, and a positive value implies an empty wait queue. -/
def semInv (s : SemSys) : Prop :=
  0 ≤ s.value ∧ (0 < s.value → s.queue = [])

instance (s : SemSys) : Decidable (semInv s) := by
  unfold semInv; infer_instance

/-! ## Kernel heap (src/mm/kheap.c, src/mm/kheap.h)

The heap is a contiguous virtual range starting at KHEAP_START with a
header before each block.  Headers are modelled as records stored at their
addresses; `next`/`prev` are addresses (0 = NULL).  `sizeof(header_t)` is
20 on i386: two 4-byte pointers, two uint32 fields and one uint8 flag,
padded to the 4-byte struct alignment.  Note that kheap.c's `free_list`
static variable is assigned only in kheap_init and never moved afterwards,
so the walk in kmalloc always starts at the first block of the heap. -/

def KHEAP_START : Nat := 0xA00000

def KHEAP_INITIAL_SIZE : Nat := 0x100000

def KHEAP_MAGIC : Nat := 0x12345678

def SIZEOF_HEADER : Nat := 20

structure Header where
  next : Nat
  prev : Nat
  size : Nat
  magic : Nat
  is_free : Bool
  deriving DecidableEq, Repr

structure HeapSt where
  mem : Nat → Header
  free_list : Nat

def hwrite (m : Nat → Header) (a : Nat) (h : Header) : Nat → Header :=
  fun x => if x = a then h else m x

/-- kheap_init (src/mm/kheap.c lines 15-28): one free block covering the
whole heap.  Unwritten addresses hold an all-zero header (magic 0). -/
def kheap_init : HeapSt :=
  { mem := hwrite (fun _ => ⟨0, 0, 0, 0, false⟩) KHEAP_START
      ⟨0, 0, KHEAP_INITIAL_SIZE - SIZEOF_HEADER, KHEAP_MAGIC, true⟩,
    free_list := KHEAP_START }

/-- The body of kmalloc's while loop (src/mm/kheap.c lines 40-79), walking
the block list from `current`.  Fuel bounds the walk; the source loop is
bounded by the length of the (finite, acyclic) block list, and every run
below finishes well within the supplied fuel. -/
def kmallocLoop (st : HeapSt) (aligned_size : Nat) : Nat → Nat → HeapSt × Nat
  | _, 0 => (st, 0)          -- current == NULL: out of memory, return 0
  | 0, _ => (st, 0)
  | fuel + 1, current =>
    let cur := st.mem current
    if cur.magic ≠ KHEAP_MAGIC then (st, 0)    -- corruption detected
    else if cur.is_free ∧ aligned_size ≤ cur.size then
      -- found a fit; split if the remainder can hold a header + 4 bytes
      let st1 :=
        if cur.size > aligned_size + SIZEOF_HEADER + 4 then
          let new_addr := current + SIZEOF_HEADER + aligned_size
          let m1 := hwrite st.mem new_addr
            ⟨cur.next, current, cur.size - aligned_size - SIZEOF_HEADER, KHEAP_MAGIC, true⟩
          -- if (current->next) current->next->prev = new_block;
          let m2 := if cur.next ≠ 0 then hwrite m1 cur.next { m1 cur.next with prev := new_addr } else m1
          -- current->next = new_block; current->size = aligned_size;
          let m3 := hwrite m2 current { m2 current with next := new_addr, size := aligned_size }
          { st with mem := m3 }
        else st
      -- current->is_free = 0; return data pointer
      let m4 := hwrite st1.mem current { st1.mem current with is_free := false }
      ({ st1 with mem := m4 }, current + SIZEOF_HEADER)
    else kmallocLoop st aligned_size fuel cur.next

/-- kmalloc (src/mm/kheap.c lines 30-85). -/
def kmalloc (st : HeapSt) (size : Nat) (fuel : Nat) : HeapSt × Nat :=
  if size = 0 then (st, 0)
  else
    -- uint32_t aligned_size = (size + 3) & ~3;
    let aligned_size := (size + 3) &&& 0xFFFFFFFC
    kmallocLoop st aligned_size fuel st.free_list

/-- kfree (src/mm/kheap.c lines 87-126): mark free, coalesce with the next
neighbor, then with the previous neighbor. -/
def kfree (st : HeapSt) (ptr : Nat) : HeapSt :=
  if ptr = 0 then st
  else
    let blk := ptr - SIZEOF_HEADER
    if (st.mem blk).magic ≠ KHEAP_MAGIC then st   -- invalid free pointer
    else
      -- block->is_free = 1;
      let m0 := hwrite st.mem blk { st.mem blk with is_free := true }
      -- coalesce with NEXT
      let b0 := m0 blk
      let m1 :=
        if b0.next ≠ 0 ∧ (m0 b0.next).is_free then
          let ma := hwrite m0 blk
            { b0 with size := b0.size + (m0 b0.next).size + SIZEOF_HEADER,
                      next := (m0 b0.next).next }
          -- if (block->next) block->next->prev = block;
          let bn := (ma blk).next
          if bn ≠ 0 then hwrite ma bn { ma bn with prev := blk } else ma
        else m0
      -- coalesce with PREV
      let b1 := m1 blk
      let m2 :=
        if b1.prev ≠ 0 ∧ (m1 b1.prev).is_free then
          let mb := hwrite m1 b1.prev
            { m1 b1.prev with size := (m1 b1.prev).size + b1.size + SIZEOF_HEADER,
                              next := b1.next }
          -- if (block->next) block->next->prev = block->prev;
          if b1.next ≠ 0 then hwrite mb b1.next { mb b1.next with prev := b1.prev } else mb
        else m1
      { st with mem := m2 }

/-- The S1 heap scenario (spec section 8): allocate A, B, C of 256 bytes
each, free B, A, C, then allocate 768 bytes; returns (A, D). -/
def heapScenario : Nat × Nat :=
  let st0 := kheap_init
  let r1 := kmalloc st0 256 8
  let r2 := kmalloc r1.1 256 8
  let r3 := kmalloc r2.1 256 8
  let st4 := kfree r3.1 r2.2
  let st5 := kfree st4 r1.2
  let st6 := kfree st5 r3.2
  let r7 := kmalloc st6 768 8
  (r1.2, r7.2)

/-! ## Physical frame allocator

The repository declares a reference-counting PMM interface in
src/mm/pmm.h (pmm_alloc_block, pmm_free_block, pmm_inc_ref, pmm_get_ref)
and both src/mm/vmm.c and src/cpu/isr.c call it and document its
refcounting behavior, but the only implementation under src/
(src/mm/pmm.c) maintains a bare bitmap and defines neither pmm_inc_ref nor
pmm_get_ref.  Two embeddings follow: the bitmap-only code that is actually
in src/mm/pmm.c (namespace SrcPmm), and the reference-counting allocator
the rest of the kernel is written against, modelled from spec section 4.1. -/

namespace SrcPmm

/-- State of the allocator exactly as implemented in src/mm/pmm.c: a
presence bitmap (one bit per 4 KiB frame, modelled per-bit) and the
used_memory_blocks counter.  There is no reference-count array. -/
structure St where
  bits : Nat → Bool
  used : Nat

def mmap_set (s : St) (bit : Nat) : St :=
  { s with bits := fun i => if i = bit then true else s.bits i }

def mmap_unset (s : St) (bit : Nat) : St :=
  { s with bits := fun i => if i = bit then false else s.bits i }

def mmap_test (s : St) (bit : Nat) : Bool := s.bits bit

/-- mmap_first_free (src/mm/pmm.c lines 34-46): first-fit over the bitmap,
lowest index first; the byte-skipping in the source is an optimization
with the same result. -/
def mmap_first_free (s : St) : Option Nat :=
  (List.range (32768 * 8)).find? (fun i => !s.bits i)

/-- pmm_alloc_block (src/mm/pmm.c lines 184-197): returns 0 on OOM. -/
def pmm_alloc_block (s : St) : St × Nat :=
  match mmap_first_free s with
  | none => (s, 0)
  | some frame => ({ mmap_set s frame with used := s.used + 1 }, frame * 4096)

/-- pmm_free_block (src/mm/pmm.c lines 199-203): unconditionally clears
the frame's bit and decrements used_memory_blocks.  No refcount exists. -/
def pmm_free_block (s : St) (addr : Nat) : St :=
  let frame := addr / 4096
  { mmap_unset s frame with used := s.used - 1 }

end SrcPmm

/-- Modelled from the spec: the reference-counting physical frame
allocator that src/mm/pmm.h declares and src/mm/vmm.c / src/cpu/isr.c
call (pmm_inc_ref, pmm_get_ref, and the refcounting behavior of free);
its implementation is missing from src/.  Spec section 4.1: one bitmap
bit and one refcount per frame; nframes is the number of frames the
bitmap covers (total_memory_blocks, computed from the boot memory map). -/
structure Pmm where
  nframes : Nat
  bits : Nat → Bool
  refs : Nat → Nat

/-- Modelled from the spec: lowest-indexed frame whose bit is 0. -/
def pmm_first_free (p : Pmm) : Option Nat :=
  (List.range p.nframes).find? (fun i => !p.bits i)

/-- Modelled from the spec: alloc() returns one zero-refcount frame's
physical address, sets its bit, sets its refcount to 1; fails (None) when
no free frame exists. -/
def pmm_alloc_block (p : Pmm) : Pmm × Option Nat :=
  match pmm_first_free p with
  | none => (p, none)
  | some f =>
    ({ p with bits := fun i => if i = f then true else p.bits i,
              refs := fun i => if i = f then 1 else p.refs i }, some (f * 4096))

/-- Modelled from the spec: free(addr) decrements the refcount and clears
the bit only when the refcount reaches zero. -/
def pmm_free_block (p : Pmm) (addr : Nat) : Pmm :=
  let f := addr / 4096
  let r1 := p.refs f - 1
  { p with refs := fun i => if i = f then r1 else p.refs i,
           bits := if r1 = 0 then (fun i => if i = f then false else p.bits i) else p.bits }

/-- Modelled from the spec: inc_ref(addr) increments the refcount without
touching the bit. -/
def pmm_inc_ref (p : Pmm) (addr : Nat) : Pmm :=
  let f := addr / 4096
  { p with refs := fun i => if i = f then p.refs i + 1 else p.refs i }

/-- Modelled from the spec: get_ref(addr) returns the current refcount. -/
def pmm_get_ref (p : Pmm) (addr : Nat) : Nat :=
  p.refs (addr / 4096)

/-! ## Paging constants (src/mm/vmm.h) -/

def I86_PTE_PRESENT : Nat := 0x01

def I86_PTE_WRITABLE : Nat := 0x02

def I86_PTE_USER : Nat := 0x04

def I86_PTE_FRAME : Nat := 0xFFFFF000

/-- Modelled from the spec: the OS-reserved COW flag lives in one of the
available PTE bits [11..9]; its macro definition (I86_PTE_COW, used by
src/mm/vmm.c and src/cpu/isr.c) is missing from the headers under src/.
Bit 9 is taken here. -/
def I86_PTE_COW : Nat := 0x200

/-- The 32-bit complement of I86_PTE_WRITABLE, as computed by the C
expression ~I86_PTE_WRITABLE on uint32_t. -/
def NOT_WRITABLE : Nat := 0xFFFFFFFD

/-- The 32-bit complement of I86_PTE_COW. -/
def NOT_COW : Nat := 0xFFFFFDFF

/-! ## Virtual memory manager state (src/mm/vmm.c)

Physical memory is a map from frame base address to frame content, each
frame holding 1024 32-bit words; page directories and page tables are
frames.  The kernel accesses a frame at physical address p through the
direct map at virtual P2V(p) = p + 3 GiB; the embedding keys everything
by physical address. -/

structure VmmState where
  mem : Nat → Nat → Nat
  pmm : Pmm

/-- Store one 32-bit word in a frame. -/
def writeWord (m : Nat → Nat → Nat) (t idx v : Nat) : Nat → Nat → Nat :=
  fun a b => if a = t ∧ b = idx then v else m a b

/-- memset(frame, 0, 4096). -/
def zeroFrame (m : Nat → Nat → Nat) (t : Nat) : Nat → Nat → Nat :=
  fun a b => if a = t then 0 else m a b

/-- copy_page_physical (src/mm/vmm.c lines 142-149): copy the 1024 words
of the frame at src to the frame at dest. -/
def copy_page_physical (m : Nat → Nat → Nat) (src dest : Nat) : Nat → Nat → Nat :=
  fun a b => if a = dest then m src b else m a b

/-- vmm_is_mapped (src/mm/vmm.c lines 84-94). -/
def vmm_is_mapped (σ : VmmState) (dirPhys virt : Nat) : Bool :=
  let pd_index := virt >>> 22
  let pt_index := (virt >>> 12) &&& 0x03FF
  if σ.mem dirPhys pd_index &&& I86_PTE_PRESENT = 0 then false
  else
    let table_phys := σ.mem dirPhys pd_index &&& 0xFFFFF000
    (σ.mem table_phys pt_index &&& I86_PTE_PRESENT) ≠ 0

/-- vmm_map_page_in_dir (src/mm/vmm.c lines 40-76).  Returns the new state
and 1/0 as success flag; the TLB invalidation for the currently active
directory has no effect on the modelled state. -/
def vmm_map_page_in_dir (σ : VmmState) (dirPhys virt phys flags : Nat) : VmmState × Bool :=
  let pd_index := virt >>> 22
  let pt_index := (virt >>> 12) &&& 0x03FF
  let withTable : Option VmmState :=
    if σ.mem dirPhys pd_index &&& I86_PTE_PRESENT = 0 then
      match pmm_alloc_block σ.pmm with
      | (_, none) => none                      -- OOM: return 0
      | (p1, some new_table_phys) =>
        let m1 := zeroFrame σ.mem new_table_phys
        let pde_flags := (I86_PTE_PRESENT ||| I86_PTE_WRITABLE) |||
          (if flags &&& I86_PTE_USER ≠ 0 then I86_PTE_USER else 0)
        some { mem := writeWord m1 dirPhys pd_index (new_table_phys ||| pde_flags), pmm := p1 }
    else some σ
  match withTable with
  | none => (σ, false)
  | some σ1 =>
    let table_phys := σ1.mem dirPhys pd_index &&& 0xFFFFF000
    ({ σ1 with mem := writeWord σ1.mem table_phys pt_index (phys ||| flags) }, true)

/-- The COW flag rewrite applied to one present user PTE by
vmm_clone_directory (src/mm/vmm.c lines 191-212): a writable page loses
Writable and gains COW; the frame bits are kept. -/
def cowTransform (pte : Nat) : Nat :=
  let frame_phys := pte &&& I86_PTE_FRAME
  let pte_flags := pte &&& 0x0FFF
  let pte_flags1 :=
    if pte_flags &&& I86_PTE_WRITABLE ≠ 0
    then (pte_flags &&& NOT_WRITABLE) ||| I86_PTE_COW
    else pte_flags
  frame_phys ||| pte_flags1

/-- The body of the inner loop of vmm_clone_directory (src/mm/vmm.c lines
191-213) for one PTE index j: if the source PTE is present, rewrite the
source entry when it was writable, bump the frame's refcount, and store
the (possibly COW-marked) entry into the destination table. -/
def clonePteStep (srcT dstT j : Nat) (σ : VmmState) : VmmState :=
  let spte := σ.mem srcT j
  if spte &&& I86_PTE_PRESENT ≠ 0 then
    let frame_phys := spte &&& I86_PTE_FRAME
    let pte_flags := spte &&& 0x0FFF
    let writable := pte_flags &&& I86_PTE_WRITABLE ≠ 0
    let pte_flags1 :=
      if writable then (pte_flags &&& NOT_WRITABLE) ||| I86_PTE_COW else pte_flags
    -- src_table->m_entries[j] = frame_phys | pte_flags;  (writable case)
    let σ1 := if writable
      then { σ with mem := writeWord σ.mem srcT j (frame_phys ||| pte_flags1) }
      else σ
    -- pmm_inc_ref(frame_phys);
    let σ2 := { σ1 with pmm := pmm_inc_ref σ1.pmm frame_phys }
    -- dst_table->m_entries[j] = frame_phys | pte_flags;
    { σ2 with mem := writeWord σ2.mem dstT j (frame_phys ||| pte_flags1) }
  else σ

/-- The inner loop of vmm_clone_directory over the PTE indices js of one
user page table. -/
def clonePteLoop (srcT dstT : Nat) (js : List Nat) (σ : VmmState) : VmmState :=
  match js with
  | [] => σ
  | j :: rest => clonePteLoop srcT dstT rest (clonePteStep srcT dstT j σ)

/-- The body of the outer loop of vmm_clone_directory (src/mm/vmm.c lines
170-214) for one user PDE index i: skip an absent table; allocate and
zero a new table for a present one (false on OOM, where the source
returns 0 mid-way), link it into the new directory with the source PDE's
flags, and run the PTE loop. -/
def clonePdeStep (srcPhys dirPhys i : Nat) (σ : VmmState) : VmmState × Bool :=
  if σ.mem srcPhys i &&& I86_PTE_PRESENT = 0 then (σ, true)
  else
    match pmm_alloc_block σ.pmm with
    | (p1, none) => ({ σ with pmm := p1 }, false)
    | (p1, some table_phys) =>
      let σ1 : VmmState := { mem := zeroFrame σ.mem table_phys, pmm := p1 }
      let flags := σ1.mem srcPhys i &&& 0x0FFF
      let σ2 := { σ1 with mem := writeWord σ1.mem dirPhys i (table_phys ||| flags) }
      let src_table_phys := σ2.mem srcPhys i &&& 0xFFFFF000
      (clonePteLoop src_table_phys table_phys (List.range 1024) σ2, true)

/-- The outer loop of vmm_clone_directory over the user PDE indices. -/
def clonePdeLoop (srcPhys dirPhys : Nat) (is : List Nat) (σ : VmmState) : VmmState × Bool :=
  match is with
  | [] => (σ, true)
  | i :: rest =>
    match clonePdeStep srcPhys dirPhys i σ with
    | (σ1, false) => (σ1, false)
    | (σ1, true) => clonePdeLoop srcPhys dirPhys rest σ1

/-- Ghost accounting: the number of PTE indices in js whose entry in the
table at srcT is present and references the frame with index g — i.e. the
number of pmm_inc_ref calls the inner loop performs on that frame. -/
def frameIncCount (m : Nat → Nat → Nat) (srcT : Nat) (js : List Nat) (g : Nat) : Nat :=
  js.countP (fun j =>
    decide (m srcT j &&& I86_PTE_PRESENT ≠ 0) &&
    decide ((m srcT j &&& I86_PTE_FRAME) / 4096 = g))

/-- Ghost accounting: the total number of pmm_inc_ref calls the clone
performs on frame index g, summed over the user PDE indices in is. -/
def dirIncCount (m : Nat → Nat → Nat) (srcPhys : Nat) (is : List Nat) (g : Nat) : Nat :=
  (is.map (fun i =>
    if m srcPhys i &&& I86_PTE_PRESENT ≠ 0 then
      frameIncCount m (m srcPhys i &&& 0xFFFFF000) (List.range 1024) g
    else 0)).sum

/-- Copy the kernel-space directory entries [768..1024) by value. -/
def copyKernelEntries (srcPhys dirPhys : Nat) (is : List Nat) (σ : VmmState) : VmmState :=
  match is with
  | [] => σ
  | i :: rest =>
    copyKernelEntries srcPhys dirPhys rest
      { σ with mem := writeWord σ.mem dirPhys i (σ.mem srcPhys i) }

/-- vmm_clone_directory (src/mm/vmm.c lines 154-229).  Takes the physical
address of the source directory (the C function receives its direct-map
virtual alias); returns the new state and the physical address of the new
directory, or none where the source returns 0.  The final CR3 reload for
an active source directory only flushes the TLB and has no modelled
effect. -/
def vmm_clone_directory (σ : VmmState) (srcPhys : Nat) : VmmState × Option Nat :=
  match pmm_alloc_block σ.pmm with
  | (p1, none) => ({ σ with pmm := p1 }, none)
  | (p1, some dir_phys) =>
    let σ1 : VmmState := { mem := zeroFrame σ.mem dir_phys, pmm := p1 }
    let σ2 := copyKernelEntries srcPhys dir_phys (List.range' 768 256) σ1
    match clonePdeLoop srcPhys dir_phys (List.range 768) σ2 with
    | (σ3, false) => (σ3, none)
    | (σ3, true) => (σ3, some dir_phys)

/-! ## Page-fault handler (src/cpu/isr.c, lines 70-176) -/

/-- Outcome of page_fault_handler: a resolved COW fault returns to the
faulting task after invalidating the TLB entry for the faulting address;
allocation failure during COW duplication hangs in `while(1)`; everything
else prints a diagnostic and halts. -/
inductive PFResult where
  | resolved (σ : VmmState) (invalidated : Nat)
  | oomHang
  | panicHalt
deriving Nonempty

/-- page_fault_handler (src/cpu/isr.c lines 70-176): cr3 is the active
page directory (physical), fa the faulting address read from CR2. -/
def page_fault_handler (σ : VmmState) (cr3 fa err_code : Nat) : PFResult :=
  let present := err_code &&& 0x1
  let rw := err_code &&& 0x2
  if present ≠ 0 ∧ rw ≠ 0 then
    let pd_index := fa >>> 22
    let pt_index := (fa >>> 12) &&& 0x03FF
    if σ.mem cr3 pd_index &&& I86_PTE_PRESENT ≠ 0 then
      let pt_phys := σ.mem cr3 pd_index &&& I86_PTE_FRAME
      let pte := σ.mem pt_phys pt_index
      if pte &&& I86_PTE_PRESENT ≠ 0 then
        if pte &&& I86_PTE_COW ≠ 0 then
          let old_frame := pte &&& I86_PTE_FRAME
          if pmm_get_ref σ.pmm old_frame = 1 then
            -- pt->m_entries[pt_index] |= I86_PTE_WRITABLE;
            let m1 := writeWord σ.mem pt_phys pt_index (pte ||| I86_PTE_WRITABLE)
            -- pt->m_entries[pt_index] &= ~I86_PTE_COW;
            let m2 := writeWord m1 pt_phys pt_index ((m1 pt_phys pt_index) &&& NOT_COW)
            PFResult.resolved { σ with mem := m2 } fa
          else
            match pmm_alloc_block σ.pmm with
            | (_, none) => PFResult.oomHang
            | (p1, some new_frame) =>
              let m1 := copy_page_physical σ.mem old_frame new_frame
              let flags := ((m1 pt_phys pt_index &&& 0x0FFF) ||| I86_PTE_WRITABLE) &&& NOT_COW
              let m2 := writeWord m1 pt_phys pt_index (new_frame ||| flags)
              let p2 := pmm_free_block p1 old_frame
              PFResult.resolved { mem := m2, pmm := p2 } fa
        else PFResult.panicHalt
      else PFResult.panicHalt
    else PFResult.panicHalt
  else PFResult.panicHalt

/-! ## Trap frame (src/cpu/isr.h, registers_t) -/

structure Regs where
  gs : Nat
  fs : Nat
  es : Nat
  ds : Nat
  edi : Nat
  esi : Nat
  ebp : Nat
  esp : Nat
  ebx : Nat
  edx : Nat
  ecx : Nat
  eax : Nat
  eip : Nat
  cs : Nat
  eflags : Nat
  useresp : Nat
  ss : Nat
  deriving DecidableEq, Repr

/-! ## sys_execve (src/kernel/process.c, lines 311-366)

The ELF loader is an external collaborator (spec section 6): elf_load
places the PT_LOAD segments in the current address space and returns the
entry point, or 0 on failure; its result is the `entry` parameter here and
its segment writes are outside the modelled state.  intf0 is the EFLAGS.IF
value on entry; the function begins with cli and re-enables interrupts
with sti only on the success path.  Returns (return value, memory state,
trap frame, EFLAGS.IF at return). -/

def sys_execve (intf0 : Bool) (σ : VmmState) (cr3 : Nat) (entry : Nat) (regs : Regs) :
    Int × VmmState × Regs × Bool :=
  -- __asm__ volatile("cli");
  let _ := intf0
  if entry = 0 then
    (-1, σ, regs, false)                     -- load failure: cli never undone
  else
    -- ensure the user stack page at 0xF00000 is mapped
    let ensured : Option VmmState :=
      if !(vmm_is_mapped σ cr3 0xF00000) then
        match pmm_alloc_block σ.pmm with
        | (_, none) => none                  -- stack alloc failure: return -1
        | (p1, some frame) =>
          let σ1 : VmmState := { σ with pmm := p1 }
          some (vmm_map_page_in_dir σ1 cr3 0xF00000 frame
            (I86_PTE_PRESENT ||| I86_PTE_WRITABLE ||| I86_PTE_USER)).1
      else some σ
    match ensured with
    | none => (-1, σ, regs, false)
    | some σ2 =>
      -- memset((void*)0xF00000, 0, 4096): zero the frame now mapped there
      let tp := σ2.mem cr3 (0xF00000 >>> 22) &&& 0xFFFFF000
      let fr := σ2.mem tp ((0xF00000 >>> 12) &&& 0x03FF) &&& I86_PTE_FRAME
      let σ3 := { σ2 with mem := zeroFrame σ2.mem fr }
      -- rewrite the trap frame for the new image
      let regs1 := { regs with eip := entry, useresp := 0xF00FFC,
                               ecx := 0, edx := 0, ebx := 0, ebp := 0, esi := 0, edi := 0 }
      -- __asm__ volatile("sti"); return 0;
      (0, σ3, regs1, true)

/-! ## Process table and scheduler (src/kernel/process.c)

The source keeps a static array of MAX_PROCESSES PCBs, a current_pid index
and a process_count.  The PCB fields relevant to process lifecycle are
modelled; the embedded kernel stack, the saved esp and the forged
stack frames (which only feed the context-switch assembly), and the
unused next/prev pointers are outside the model.  vmm_clone_directory's
result is passed in as the clonedPd parameter where the source calls it. -/

def MAX_PROCESSES : Nat := 10

structure Proc where
  pd : Nat
  id : Nat
  parent_id : Int
  state : PState
  exit_code : Int
  deriving DecidableEq, Repr

structure ProcSys where
  processes : Nat → Proc
  current_pid : Nat
  process_count : Nat

def updProc (ps : Nat → Proc) (i : Nat) (f : Proc → Proc) : Nat → Proc :=
  fun j => if j = i then f (ps j) else ps j

/-- init_multitasking (src/kernel/process.c lines 65-89): all slots
TERMINATED with parent -1, then slot 0 becomes the RUNNING kernel process
whose page directory is the active CR3. -/
def init_multitasking (ps0 : Nat → Proc) (cr3 : Nat) : ProcSys :=
  let ps1 := fun i =>
    if i < MAX_PROCESSES then { ps0 i with state := PState.TERMINATED, parent_id := -1 }
    else ps0 i
  let ps2 := updProc ps1 0 (fun p =>
    { p with id := 0, parent_id := -1, state := PState.RUNNING, pd := cr3 })
  { processes := ps2, current_pid := 0, process_count := 1 }

/-- create_task (src/kernel/process.c lines 94-143): refuses beyond
MAX_PROCESSES; otherwise fills the next slot and marks it READY.  The
forged kernel stack (task_wrapper frame) is outside the modelled fields;
clonedPd is the result of the vmm_clone_directory call. -/
def create_task (s : ProcSys) (clonedPd : Nat) : ProcSys :=
  if s.process_count ≥ MAX_PROCESSES then s
  else
    let pid := s.process_count
    let ps := updProc s.processes pid (fun p =>
      { p with id := pid, parent_id := (s.current_pid : Int), pd := clonedPd,
               state := PState.READY })
    { s with processes := ps, process_count := s.process_count + 1 }

/-- sys_fork (src/kernel/process.c lines 151-239): allocates the next
slot as a child of the current process with the cloned address space,
marks it READY, and returns the child pid to the parent (the copied trap
frame with eax forced to 0 lives on the child's kernel stack, outside the
modelled fields).  Returns -1 when the table is full. -/
def sys_fork (s : ProcSys) (clonedPd : Nat) : ProcSys × Int :=
  if s.process_count ≥ MAX_PROCESSES then (s, -1)
  else
    let child := s.process_count
    let ps := updProc s.processes child (fun p =>
      { p with id := child, parent_id := (s.current_pid : Int), pd := clonedPd,
               state := PState.READY })
    ({ s with processes := ps, process_count := s.process_count + 1 }, (child : Int))

/-- The do/while selection loop of schedule (src/kernel/process.c lines
252-270): advance (wrapping at process_count), stop at a READY or RUNNING
process; after process_count + 1 advances without success, fall back to
pid 0.  The fuel argument counts the remaining advances before that
fallback fires. -/
def scheduleLoop (s : ProcSys) : Nat → Nat → Nat
  | 0, _ => 0
  | fuel + 1, next =>
    let n1 := if next + 1 ≥ s.process_count then 0 else next + 1
    if (s.processes n1).state = PState.READY ∨ (s.processes n1).state = PState.RUNNING
    then n1
    else scheduleLoop s fuel n1

/-- schedule (src/kernel/process.c lines 242-305): selects the next
runnable pid round-robin and makes it current.  No process state field is
written; the TSS/CR3 update and the context switch act on state outside
the model. -/
def schedule (s : ProcSys) : ProcSys :=
  if s.process_count ≤ 1 then s
  else { s with current_pid := scheduleLoop s s.process_count s.current_pid }

/-- sys_exit (src/kernel/process.c lines 372-400): record the exit code,
mark the current process TERMINATED (zombie), and call the scheduler. -/
def sys_exit (s : ProcSys) (code : Int) : ProcSys :=
  let ps := updProc s.processes s.current_pid (fun p =>
    { p with exit_code := code, state := PState.TERMINATED })
  schedule { s with processes := ps }

/-- Result of sys_wait: the reaped child's pid and exit code, -1 when the
caller has no children, or blocking (the source busy-waits with sti/hlt
and rescans) while children are still live. -/
inductive WaitRes where
  | reaped (pid : Nat) (code : Int)
  | nochild
  | wouldBlock
  deriving DecidableEq, Repr

/-- The first TERMINATED child of the current process in slot order, as
found by sys_wait's scan. -/
def firstZombie (s : ProcSys) : Option Nat :=
  (List.range s.process_count).find? (fun i =>
    (s.processes i).parent_id == (s.current_pid : Int) &&
    (s.processes i).state == PState.TERMINATED)

/-- sys_wait (src/kernel/process.c lines 402-449): one pass of the scan
loop.  A found zombie child is "reaped" by copying its exit code out and
setting its parent_id to -1; the source explicitly leaves the slot
TERMINATED and frees neither the PCB slot nor the child's address space.
With live children the source waits for the next timer tick and rescans
(wouldBlock); with no children it returns -1. -/
def sys_wait (s : ProcSys) : WaitRes × ProcSys :=
  match firstZombie s with
  | some i =>
    (WaitRes.reaped (s.processes i).id (s.processes i).exit_code,
     { s with processes := updProc s.processes i (fun p => { p with parent_id := -1 }) })
  | none =>
    if (List.range s.process_count).any
        (fun i => (s.processes i).parent_id == (s.current_pid : Int))
    then (WaitRes.wouldBlock, s)
    else (WaitRes.nochild, s)

/-- The invariant claimed for the process table: the current pid is a live
slot, exactly one process (the current one) is RUNNING. -/
def uniqueRunningCurrent (s : ProcSys) : Prop :=
  s.current_pid < s.process_count ∧ s.process_count ≤ MAX_PROCESSES ∧
  (s.processes s.current_pid).state = PState.RUNNING ∧
  ∀ i < MAX_PROCESSES, i ≠ s.current_pid → (s.processes i).state ≠ PState.RUNNING

instance (s : ProcSys) : Decidable (uniqueRunningCurrent s) := by
  unfold uniqueRunningCurrent; infer_instance

/-! ### Concrete states used by witnesses and counterexamples (sync) -/

/-- A semaphore state satisfying the invariant, value 2, empty queue. -/
def semS0 : SemSys :=
  { value := 2, locked := false, queue := [], pstate := fun _ => PState.READY,
    current := 3, intf := true }

/-- A semaphore state with value 0 and one blocked waiter. -/
def semS1 : SemSys :=
  { value := 0, locked := false, queue := [1], pstate := fun _ => PState.BLOCKED,
    current := 0, intf := true }

/-- A semaphore state with value 0 and two blocked waiters (1 then 2). -/
def semCx : SemSys :=
  { value := 0, locked := false, queue := [1, 2], pstate := fun _ => PState.BLOCKED,
    current := 0, intf := true }

/-- A lock state with interrupts disabled before the acquire. -/
def lockCx : LockSt := { locked := false, intf := false }

/-! ### Concrete states (processes, exec, PMM, COW) -/

/-- Slot contents before init_multitasking runs (uninitialized BSS). -/
def defaultProc : Proc :=
  { pd := 0, id := 0, parent_id := 0, state := PState.READY, exit_code := 0 }

/-- init_multitasking, one create_task, then one schedule call. -/
def procCx : ProcSys :=
  schedule (create_task (init_multitasking (fun _ => defaultProc) 999) 777)

/-- The exit/wait scenario state: pid 0 forks pid 1 (address space 666),
the scheduler switches to the child, and the child exits with code 42.
current_pid is back at the parent, 0. -/
def waitS4 : ProcSys :=
  sys_exit (schedule (sys_fork (init_multitasking (fun _ => defaultProc) 555) 666).1) 42

/-- A source-PMM state where frame 5's bit is set, standing for a frame
that vmm_clone_directory has shared between two address spaces. -/
def srcPmmSt : SrcPmm.St := { bits := fun i => i == 5, used := 1 }

/-- A concrete trap frame. -/
def regs0 : Regs :=
  { gs := 1, fs := 2, es := 3, ds := 4, edi := 5, esi := 6, ebp := 7, esp := 8,
    ebx := 9, edx := 10, ecx := 11, eax := 12, eip := 13, cs := 14, eflags := 15,
    useresp := 16, ss := 17 }

/-- Memory for a directory at 4096 whose user stack page 0xF00000 is
already mapped (PDE 3 -> table 8192, PTE 768 -> frame 12288). -/
def σexec : VmmState :=
  { mem := fun a b =>
      if a = 4096 ∧ b = 3 then 8192 ||| 3
      else if a = 8192 ∧ b = 768 then 12288 ||| 7
      else 0,
    pmm := { nframes := 4, bits := fun i => decide (i < 4), refs := fun _ => 1 } }

/-- A state whose user stack page is unmapped and whose PMM has no free
frame left. -/
def σfail : VmmState :=
  { mem := fun _ _ => 0,
    pmm := { nframes := 1, bits := fun _ => true, refs := fun _ => 1 } }

/-- COW page-fault state: directory at 4096, PDE 0 -> table at 8192,
PTE 1 -> frame 12288 with Present|User|COW flags, frame content j+7;
frames 0..3 in use, 4..7 free.  The referenced frame has refcount 1. -/
def σcow1 : VmmState :=
  { mem := fun a b =>
      if a = 4096 ∧ b = 0 then 8192 ||| 1
      else if a = 8192 ∧ b = 1 then 12288 ||| 0x205
      else if a = 12288 then b + 7
      else 0,
    pmm := { nframes := 8, bits := fun i => decide (i < 4),
             refs := fun i => if i = 3 then 1 else 0 } }

/-- Same as σcow1 but the COW frame is shared (refcount 2). -/
def σcow2 : VmmState :=
  { σcow1 with pmm := { σcow1.pmm with refs := fun i => if i = 3 then 2 else 0 } }

/-- Same as σcow2 but with every frame in use: the COW duplication has no
frame to allocate. -/
def σcowOOM : VmmState :=
  { σcow2 with pmm := { σcow2.pmm with bits := fun _ => true } }

/-- Clone-source state: directory at 12288 with one present user PDE
(index 0, table at 16384) holding one present READ-ONLY user PTE
(index 0, frame 20480, flags Present|User).  Frames 0..5 in use, 6..7
free. -/
def σro : VmmState :=
  { mem := fun a b =>
      if a = 12288 ∧ b = 0 then 16384 ||| 5
      else if a = 16384 ∧ b = 0 then 20480 ||| 5
      else 0,
    pmm := { nframes := 8, bits := fun i => decide (i < 6),
             refs := fun i => if i = 5 then 1 else 0 } }

/-- Same as σro but the single user PTE is writable (Present|Writable|User). -/
def σrw : VmmState :=
  { σro with mem := fun a b =>
      if a = 12288 ∧ b = 0 then 16384 ||| 5
      else if a = 16384 ∧ b = 0 then 20480 ||| 7
      else 0 }

/-- The PMM of σro (and σrw) after the clone allocated the new directory
at frame 6. -/
def pmmRo1 : Pmm :=
  { nframes := σro.pmm.nframes,
    bits := fun i => if i = 6 then true else σro.pmm.bits i,
    refs := fun i => if i = 6 then 1 else σro.pmm.refs i }

/-- The PMM of σro (and σrw) after the clone also allocated the new page
table at frame 7. -/
def pmmRo2 : Pmm :=
  { nframes := σro.pmm.nframes,
    bits := fun i => if i = 7 then true else (if i = 6 then true else σro.pmm.bits i),
    refs := fun i => if i = 7 then 1 else (if i = 6 then 1 else σro.pmm.refs i) }

/-- init_multitasking alone, from uninitialized slots. -/
def initSys0 : ProcSys := init_multitasking (fun _ => defaultProc) 999

/-! ## Theorems -/

/-- C6: the claim states that spinlock_acquire saves the caller's
interrupt-enable flag and spinlock_release restores it, so an
acquire/release pair leaves the flag as it was for every initial state.
Counterexample: starting with interrupts disabled, the pair leaves them
enabled, because the source saves nothing: acquire is an unconditional cli
and release an unconditional sti (src/kernel/sync.c lines 11-20). -/
theorem spinlock_pair_not_restoring :
    (spinlock_release (spinlock_acquire lockCx)).intf ≠ lockCx.intf := by
  decide

/-- C6 (amended): spinlock_acquire disables interrupts and sets the lock
word without saving the previous flag; spinlock_release unconditionally
re-enables interrupts.  An acquire/release pair therefore always leaves
interrupts enabled, which coincides with the initial state only when
interrupts were enabled before the acquire. -/
theorem spinlock_acquire_release_enables (s : LockSt) :
    (spinlock_acquire s).intf = false ∧ (spinlock_acquire s).locked = true ∧
    (spinlock_release (spinlock_acquire s)).intf = true := by
  simp [spinlock_acquire, spinlock_release]

/-- C5: the claim states that for every semaphore initialized with a
non-negative value, the invariant (value ≥ 0 and value > 0 implies empty
wait queue) is preserved by every sem_wait and sem_signal.
Counterexample: from value 0 with two blocked waiters (a state satisfying
the invariant), sem_signal increments the value unconditionally and wakes
only the head of the queue, leaving value 1 with a non-empty queue
(src/kernel/sync.c lines 72-90). -/
theorem sem_signal_breaks_invariant :
    semInv semCx ∧ ¬ semInv (sem_signal semCx) := by
  decide

/-- C5 (amended): sem_init with a non-negative value establishes the
invariant; sem_wait preserves it in full; sem_signal preserves value ≥ 0
always, but preserves the clause (value > 0 implies empty queue) only when
at most one process is waiting — with two or more waiters it leaves a
positive value alongside a non-empty queue. -/
theorem sem_ops_invariant :
    (∀ (s : SemSys) (v : Int), 0 ≤ v → semInv (sem_init s v)) ∧
    (∀ s : SemSys, semInv s → semInv (sem_wait s).1) ∧
    (∀ s : SemSys, 0 ≤ s.value → 0 ≤ (sem_signal s).value) ∧
    (∀ s : SemSys, semInv s → s.queue.length ≤ 1 → semInv (sem_signal s)) := by
  refine ⟨?_, ?_, ?_, ?_⟩
  · intro s v hv
    exact ⟨hv, fun _ => rfl⟩
  · intro s hs
    obtain ⟨h1, h2⟩ := hs
    by_cases h : s.value > 0
    · simp only [sem_wait, semInv, h, if_pos]
      exact ⟨by omega, fun _ => h2 h⟩
    · simp only [sem_wait, semInv, h, if_neg, not_false_iff, if_false]
      exact ⟨h1, fun hf => hf.elim⟩
  · intro s hs
    cases hq : s.queue with
    | nil => simp only [sem_signal, hq]; omega
    | cons h t => simp only [sem_signal, hq]; omega
  · intro s hs hlen
    obtain ⟨h1, _⟩ := hs
    cases hq : s.queue with
    | nil =>
      simp only [sem_signal, semInv, hq]
      exact ⟨by omega, fun _ => trivial⟩
    | cons h t =>
      have ht : t = [] := by
        rw [hq] at hlen
        simpa using hlen
      subst ht
      simp only [sem_signal, semInv, hq]
      exact ⟨by omega, fun _ => trivial⟩

/-- C5 witness: the amended theorem applied at concrete states — a wait on
a semaphore of value 2 and a signal of a semaphore with one waiter. -/
theorem sem_ops_invariant_witness :
    semInv (sem_wait semS0).1 ∧ semInv (sem_signal semS1) :=
  ⟨sem_ops_invariant.2.1 semS0 (by decide),
   sem_ops_invariant.2.2.2 semS1 (by decide) (by decide)⟩

/-- C8: on a freshly initialized 1 MiB heap, after kmalloc A=256, B=256,
C=256 and kfree B, kfree A, kfree C, a kmalloc of 768 bytes returns the
same pointer as A — the three freed neighbors (and the trailing remainder)
have been coalesced back into one block at the start of the heap. -/
theorem heap_coalescing_scenario :
    heapScenario.1 = 0xA00014 ∧ heapScenario.2 = heapScenario.1 := by
  decide

/-- C2: pmm.h promises a per-frame refcount (and vmm.c / isr.c rely on
it: "pmm_free_block handles refcounting ... If refcount == 1, it actually
frees the bit"), but the pmm_free_block implemented in src/mm/pmm.c
clears the bitmap bit unconditionally and maintains no refcount at all
(pmm_inc_ref / pmm_get_ref are declared and called but defined nowhere
under src/).  Evaluated at the failing input: one free of a frame shared
by two address spaces (bit set, conceptual refcount 2) already clears the
bit, so the frame can be re-allocated while still mapped elsewhere. -/
theorem src_pmm_free_clears_shared_bit :
    SrcPmm.mmap_test srcPmmSt 5 = true ∧
    SrcPmm.mmap_test (SrcPmm.pmm_free_block srcPmmSt 0x5000) 5 = false := by
  decide

/-- C9: when the ELF load fails (elf_load returned 0), sys_execve returns
-1 with the entire trap frame — and the memory state — exactly as on
entry; whenever it returns 0 (success), interrupts have been re-enabled
by the closing sti. -/
theorem execve_failure_preserves_frame :
    (∀ (intf0 : Bool) (σ : VmmState) (cr3 : Nat) (regs : Regs),
       sys_execve intf0 σ cr3 0 regs = (-1, σ, regs, false)) ∧
    (∀ (intf0 : Bool) (σ : VmmState) (cr3 entry : Nat) (regs : Regs)
       (r : Int × VmmState × Regs × Bool),
       sys_execve intf0 σ cr3 entry regs = r → r.1 = 0 → r.2.2.2 = true) := by
  constructor
  · intro intf0 σ cr3 regs
    rfl
  · intro intf0 σ cr3 entry regs r hr h0
    unfold sys_execve at hr
    split at hr
    · subst hr; simp at h0
    · dsimp only at hr
      split at hr
      · subst hr; simp at h0
      · subst hr; rfl

/-- C9 witness: the theorem applied at a concrete failing load (frame kept
verbatim) and at a concrete successful exec (interrupts re-enabled). -/
theorem execve_failure_preserves_frame_witness :
    sys_execve true σexec 4096 0 regs0 = (-1, σexec, regs0, false) ∧
    (sys_execve true σexec 4096 0x400000 regs0).2.2.2 = true :=
  ⟨execve_failure_preserves_frame.1 true σexec 4096 regs0,
   execve_failure_preserves_frame.2 true σexec 4096 0x400000 regs0
     (sys_execve true σexec 4096 0x400000 regs0) rfl (by decide)⟩

/-- C10: on both failure paths of sys_execve — elf_load returning 0, and
no frame available for the unmapped user stack page — the function
returns -1 after its initial cli without a matching sti, so the caller
resumes with interrupts disabled regardless of the interrupt state on
entry. -/
theorem execve_failure_disables_interrupts :
    ∀ (intf0 : Bool) (σ : VmmState) (cr3 entry : Nat) (regs : Regs),
      (entry = 0 ∨
        (vmm_is_mapped σ cr3 0xF00000 = false ∧ pmm_first_free σ.pmm = none)) →
      (sys_execve intf0 σ cr3 entry regs).1 = -1 ∧
      (sys_execve intf0 σ cr3 entry regs).2.2.2 = false := by
  intro intf0 σ cr3 entry regs h
  by_cases he : entry = 0
  · subst he
    exact ⟨rfl, rfl⟩
  · rcases h with h | ⟨hmap, hff⟩
    · exact absurd h he
    · unfold sys_execve
      rw [if_neg he]
      simp [hmap, pmm_alloc_block, hff]

/-- C10 witness: the theorem applied with interrupts enabled on entry, at
a failing load and at a stack-frame allocation failure. -/
theorem execve_failure_disables_interrupts_witness :
    (sys_execve true σexec 4096 0 regs0).2.2.2 = false ∧
    (sys_execve true σfail 4096 0x400000 regs0).1 = -1 ∧
    (sys_execve true σfail 4096 0x400000 regs0).2.2.2 = false :=
  ⟨(execve_failure_disables_interrupts true σexec 4096 0 regs0 (Or.inl rfl)).2,
   (execve_failure_disables_interrupts true σfail 4096 0x400000 regs0
      (Or.inr ⟨by decide, by decide⟩)).1,
   (execve_failure_disables_interrupts true σfail 4096 0x400000 regs0
      (Or.inr ⟨by decide, by decide⟩)).2⟩

/-- C4: the claim states that between process-management operations
exactly one process is RUNNING and that it is the one indexed by
current_pid.  Counterexample: after init_multitasking, one create_task
and one schedule call, current_pid is 1 but slot 1 is still READY while
slot 0 is still RUNNING — schedule (src/kernel/process.c lines 242-305)
moves current_pid without writing any process state. -/
theorem schedule_breaks_running_current :
    procCx.current_pid = 1 ∧
    (procCx.processes procCx.current_pid).state ≠ PState.RUNNING ∧
    (procCx.processes 0).state = PState.RUNNING := by
  decide

/-- C4 (amended): init_multitasking establishes "exactly one RUNNING
process, namely the current one", and create_task and sys_fork preserve
it; but schedule writes no process state at all (it moves only
current_pid, so the unique RUNNING process need no longer be current
after a switch), and after sys_exit no process is in state RUNNING. -/
theorem process_table_running_invariant :
    (∀ (ps0 : Nat → Proc) (cr3 : Nat), uniqueRunningCurrent (init_multitasking ps0 cr3)) ∧
    (∀ (s : ProcSys) (pd : Nat), uniqueRunningCurrent s →
       uniqueRunningCurrent (create_task s pd)) ∧
    (∀ (s : ProcSys) (pd : Nat), uniqueRunningCurrent s →
       uniqueRunningCurrent (sys_fork s pd).1) ∧
    (∀ s : ProcSys, (schedule s).processes = s.processes ∧
       (schedule s).process_count = s.process_count) ∧
    (∀ (s : ProcSys) (code : Int), uniqueRunningCurrent s →
       ∀ i, i < MAX_PROCESSES → ((sys_exit s code).processes i).state ≠ PState.RUNNING) := by
  refine ⟨?_, ?_, ?_, ?_, ?_⟩
  · intro ps0 cr3
    refine ⟨Nat.one_pos, by show (1:Nat) ≤ MAX_PROCESSES ; decide, ?_, ?_⟩
    · simp [init_multitasking, updProc]
    · intro i hi hne
      have hne0 : i ≠ 0 := hne
      simp [init_multitasking, updProc, hne0, hi, MAX_PROCESSES]
      intro hlt
      simp_all [MAX_PROCESSES]
  · intro s pd h
    obtain ⟨h1, h2, h3, h4⟩ := h
    unfold create_task
    by_cases hc : s.process_count ≥ MAX_PROCESSES
    · rw [if_pos hc]
      exact ⟨h1, h2, h3, h4⟩
    · rw [if_neg hc]
      have hne : s.current_pid ≠ s.process_count := by omega
      refine ⟨by show s.current_pid < s.process_count + 1 ; omega,
              by show s.process_count + 1 ≤ MAX_PROCESSES ;
                 unfold MAX_PROCESSES at * ; omega, ?_, ?_⟩
      · show (updProc s.processes s.process_count _ s.current_pid).state = PState.RUNNING
        unfold updProc
        rw [if_neg hne]
        exact h3
      · intro i hi hnei
        show (updProc s.processes s.process_count _ i).state ≠ PState.RUNNING
        unfold updProc
        by_cases hieq : i = s.process_count
        · rw [if_pos hieq]
          simp
        · rw [if_neg hieq]
          exact h4 i hi hnei
  · intro s pd h
    obtain ⟨h1, h2, h3, h4⟩ := h
    unfold sys_fork
    by_cases hc : s.process_count ≥ MAX_PROCESSES
    · rw [if_pos hc]
      exact ⟨h1, h2, h3, h4⟩
    · rw [if_neg hc]
      have hne : s.current_pid ≠ s.process_count := by omega
      refine ⟨by show s.current_pid < s.process_count + 1 ; omega,
              by show s.process_count + 1 ≤ MAX_PROCESSES ;
                 unfold MAX_PROCESSES at * ; omega, ?_, ?_⟩
      · show (updProc s.processes s.process_count _ s.current_pid).state = PState.RUNNING
        unfold updProc
        rw [if_neg hne]
        exact h3
      · intro i hi hnei
        show (updProc s.processes s.process_count _ i).state ≠ PState.RUNNING
        unfold updProc
        by_cases hieq : i = s.process_count
        · rw [if_pos hieq]
          simp
        · rw [if_neg hieq]
          exact h4 i hi hnei
  · intro s
    constructor
    · unfold schedule
      split <;> rfl
    · unfold schedule
      split <;> rfl
  · intro s code h i hi
    obtain ⟨h1, h2, h3, h4⟩ := h
    have hps : (sys_exit s code).processes =
        updProc s.processes s.current_pid
          (fun p => { p with exit_code := code, state := PState.TERMINATED }) := by
      unfold sys_exit schedule
      dsimp only
      split <;> rfl
    rw [hps]
    unfold updProc
    by_cases hieq : i = s.current_pid
    · rw [if_pos hieq]
      simp
    · rw [if_neg hieq]
      exact h4 i hi hieq

/-- C4 witness: the amended theorem applied at a freshly initialized
table, for a task creation, a fork, and an exit. -/
theorem process_table_running_invariant_witness :
    uniqueRunningCurrent (create_task initSys0 777) ∧
    uniqueRunningCurrent (sys_fork initSys0 666).1 ∧
    ((sys_exit initSys0 5).processes 0).state ≠ PState.RUNNING :=
  ⟨process_table_running_invariant.2.1 initSys0 777 (by decide),
   process_table_running_invariant.2.2.1 initSys0 666 (by decide),
   process_table_running_invariant.2.2.2.2 initSys0 5 (by decide) 0 (by decide)⟩

/-- C7: the claim states that after the child exits and the parent waits,
the waited status and pid are returned and the child's PCB is gone —
unlinked, its address space and PCB freed.  Counterexample: in the
concrete exit/wait scenario the returned pid and status are right, but
the child's PCB still occupies slot 1 in state TERMINATED with its
address-space pointer (666) intact: sys_wait (src/kernel/process.c lines
402-449) only sets parent_id to -1 and never unlinks the slot, frees the
PCB, or frees the address space. -/
theorem sys_wait_leaves_zombie :
    (sys_wait waitS4).1 = WaitRes.reaped 1 42 ∧
    ((sys_wait waitS4).2.processes 1).state = PState.TERMINATED ∧
    ((sys_wait waitS4).2.processes 1).pd = 666 ∧
    ((sys_wait waitS4).2.processes 1).id = 1 := by
  decide

/-- C7 (amended): when a TERMINATED child exists, sys_wait returns its
pid together with its exit code (copied to the caller's status variable)
and detaches the child by setting parent_id to -1, leaving every other
field of the slot — and every other slot — untouched (the PCB stays
TERMINATED in the table and its address space is not freed); afterwards a
wait by a parent with no remaining children returns -1. -/
theorem sys_wait_detaches_only :
    ∀ (s : ProcSys) (i : Nat), firstZombie s = some i →
      (sys_wait s).1 = WaitRes.reaped (s.processes i).id (s.processes i).exit_code ∧
      (sys_wait s).2.processes i = { s.processes i with parent_id := -1 } ∧
      (∀ j, j ≠ i → (sys_wait s).2.processes j = s.processes j) ∧
      (sys_wait s).2.current_pid = s.current_pid ∧
      (sys_wait s).2.process_count = s.process_count ∧
      ((∀ j, j < s.process_count → j ≠ i →
          (s.processes j).parent_id ≠ (s.current_pid : Int)) →
        (sys_wait (sys_wait s).2).1 = WaitRes.nochild) := by
  intro s i hz
  have h1 : sys_wait s =
      (WaitRes.reaped (s.processes i).id (s.processes i).exit_code,
       { s with processes := updProc s.processes i (fun p => { p with parent_id := -1 }) }) := by
    unfold sys_wait
    rw [hz]
  refine ⟨by rw [h1], ?_, ?_, by rw [h1], by rw [h1], ?_⟩
  · rw [h1]
    simp [updProc]
  · intro j hj
    rw [h1]
    simp [updProc, hj]
  · intro hno
    rw [h1]
    unfold sys_wait
    have hz2 : firstZombie
        { s with processes := updProc s.processes i (fun p => { p with parent_id := -1 }) } =
        none := by
      unfold firstZombie
      apply List.find?_eq_none.mpr
      intro j hj
      rw [List.mem_range] at hj
      show ¬((updProc s.processes i _ j).parent_id == (s.current_pid : Int) &&
             ((updProc s.processes i _ j).state == PState.TERMINATED)) = true
      unfold updProc
      by_cases hieq : j = i
      · rw [if_pos hieq]
        simp only [Bool.and_eq_true, beq_iff_eq]
        rintro ⟨hc1, -⟩
        omega
      · rw [if_neg hieq]
        simp only [Bool.and_eq_true, beq_iff_eq]
        intro hcon
        exact hno j hj hieq hcon.1
    rw [hz2]
    have hany : (List.range s.process_count).any
        (fun j => (updProc s.processes i (fun p => { p with parent_id := -1 }) j).parent_id ==
          (s.current_pid : Int)) = false := by
      rw [List.any_eq_false]
      intro j hj
      rw [List.mem_range] at hj
      unfold updProc
      by_cases hieq : j = i
      · rw [if_pos hieq]
        simp only [beq_iff_eq]
        intro hcon
        omega
      · rw [if_neg hieq]
        simp only [beq_iff_eq]
        exact hno j hj hieq
    rw [hany]
    rfl

/-- C7 witness: the amended theorem applied at the concrete exit/wait
scenario: the wait reaps pid 1 with status 42, and a second wait by the
parent returns -1. -/
theorem sys_wait_detaches_only_witness :
    (sys_wait waitS4).1 =
      WaitRes.reaped (waitS4.processes 1).id (waitS4.processes 1).exit_code ∧
    (sys_wait (sys_wait waitS4).2).1 = WaitRes.nochild :=
  ⟨(sys_wait_detaches_only waitS4 1 (by decide)).1,
   (sys_wait_detaches_only waitS4 1 (by decide)).2.2.2.2.2 (by decide)⟩

/-! ### Bit-level helper lemmas (32-bit words as Nat) -/

theorem tb_high {x : Nat} (n : Nat) (hx : x < 2 ^ 32) (hn : 32 ≤ n) :
    x.testBit n = false := by
  apply Nat.testBit_lt_two_pow
  calc x < 2 ^ 32 := hx
    _ ≤ 2 ^ n := Nat.pow_le_pow_right (by norm_num) hn

theorem tb_present (n : Nat) : (0x1 : Nat).testBit n = decide (n = 0) := by
  rcases Nat.lt_or_ge n 32 with h | h
  · interval_cases n <;> decide
  · rw [tb_high n (by norm_num) h]
    have h0 : ¬ n = 0 := by omega
    simp [h0]

theorem tb_two (n : Nat) : (0x2 : Nat).testBit n = decide (n = 1) := by
  rcases Nat.lt_or_ge n 32 with h | h
  · interval_cases n <;> decide
  · rw [tb_high n (by norm_num) h]
    have h0 : ¬ n = 1 := by omega
    simp [h0]

theorem tb_cow (n : Nat) : (0x200 : Nat).testBit n = decide (n = 9) := by
  rcases Nat.lt_or_ge n 32 with h | h
  · interval_cases n <;> decide
  · rw [tb_high n (by norm_num) h]
    have h0 : ¬ n = 9 := by omega
    simp [h0]

theorem tb_fff (n : Nat) : (0xFFF : Nat).testBit n = decide (n < 12) := by
  rcases Nat.lt_or_ge n 32 with h | h
  · interval_cases n <;> decide
  · rw [tb_high n (by norm_num) h]
    have h0 : ¬ n < 12 := by omega
    simp [h0]

theorem tb_frame (n : Nat) :
    (0xFFFFF000 : Nat).testBit n = (decide (12 ≤ n) && decide (n < 32)) := by
  rcases Nat.lt_or_ge n 32 with h | h
  · interval_cases n <;> decide
  · rw [tb_high n (by norm_num) h]
    have h0 : ¬ n < 32 := by omega
    simp [h0]

theorem tb_not_cow (n : Nat) :
    (0xFFFFFDFF : Nat).testBit n = (decide (n < 32) && !decide (n = 9)) := by
  rcases Nat.lt_or_ge n 32 with h | h
  · interval_cases n <;> decide
  · rw [tb_high n (by norm_num) h]
    have h0 : ¬ n < 32 := by omega
    simp [h0]

theorem tb_not_writable (n : Nat) :
    (0xFFFFFFFD : Nat).testBit n = (decide (n < 32) && !decide (n = 1)) := by
  rcases Nat.lt_or_ge n 32 with h | h
  · interval_cases n <;> decide
  · rw [tb_high n (by norm_num) h]
    have h0 : ¬ n < 32 := by omega
    simp [h0]

theorem tb_dfd (n : Nat) :
    (0xDFD : Nat).testBit n =
      (decide (n < 12) && !decide (n = 1) && !decide (n = 9)) := by
  rcases Nat.lt_or_ge n 32 with h | h
  · interval_cases n <;> decide
  · rw [tb_high n (by norm_num) h]
    have h0 : ¬ n < 12 := by omega
    simp [h0]

theorem tb_mul4096_low (f n : Nat) (hn : n < 12) : (f * 4096).testBit n = false := by
  have hmod : (f * 4096) % 2 ^ 12 = 0 := by
    have h4 : (4096 : Nat) = 2 ^ 12 := by norm_num
    rw [h4]
    exact Nat.mul_mod_left f (2 ^ 12)
  have h := Nat.testBit_mod_two_pow (f * 4096) 12 n
  rw [hmod] at h
  simpa [hn] using h.symm

theorem and_flag_ne_iff (x i : Nat) : x &&& 2 ^ i ≠ 0 ↔ x.testBit i = true := by
  rw [Nat.and_two_pow]
  cases h : x.testBit i <;> simp [h, Nat.pos_iff_ne_zero, Nat.pow_pos]

theorem and_flag_eq_zero_iff (x i : Nat) : x &&& 2 ^ i = 0 ↔ x.testBit i = false := by
  rw [Nat.and_two_pow]
  cases h : x.testBit i <;> simp [h, Nat.pos_iff_ne_zero, Nat.pow_pos]

/-- Properties of the in-place COW resolution value (pte | WRITABLE) & ~COW:
Writable set, COW clear, frame and all other flag bits unchanged. -/
theorem cow_set_props (x : Nat) :
    ((x ||| 2) &&& 0xFFFFFDFF) &&& 2 ≠ 0 ∧
    ((x ||| 2) &&& 0xFFFFFDFF) &&& 0x200 = 0 ∧
    ((x ||| 2) &&& 0xFFFFFDFF) &&& 0xFFFFF000 = x &&& 0xFFFFF000 ∧
    ((x ||| 2) &&& 0xFFFFFDFF) &&& 0xDFD = x &&& 0xDFD := by
  refine ⟨?_, ?_, ?_, ?_⟩
  · rw [show (2 : Nat) = 2 ^ 1 by norm_num, and_flag_ne_iff]
    simp [Nat.testBit_land, Nat.testBit_lor, tb_two, tb_not_cow]
  · apply Nat.eq_of_testBit_eq
    intro n
    simp only [Nat.testBit_land, Nat.testBit_lor, tb_two, tb_cow, tb_not_cow,
      Nat.zero_testBit]
    by_cases h9 : n = 9
    · subst h9; simp
    · simp [h9]
  · apply Nat.eq_of_testBit_eq
    intro n
    simp only [Nat.testBit_land, Nat.testBit_lor, tb_two, tb_not_cow, tb_frame]
    by_cases h1 : n = 1
    · subst h1; simp
    · by_cases h9 : n = 9
      · subst h9; simp
      · by_cases h32 : n < 32
        · simp [h1, h9, h32]
        · simp [h1, h9, h32]
  · apply Nat.eq_of_testBit_eq
    intro n
    simp only [Nat.testBit_land, Nat.testBit_lor, tb_two, tb_not_cow, tb_dfd]
    by_cases h1 : n = 1
    · subst h1; simp
    · by_cases h9 : n = 9
      · subst h9; simp
      · by_cases h12 : n < 12
        · have h32 : n < 32 := by omega
          simp [h1, h9, h12, h32]
        · simp [h1, h9, h12]

/-- Properties of the COW duplication value
new_frame | (((pte & 0xFFF) | WRITABLE) & ~COW) for an aligned new frame:
Writable set, COW clear, frame field equal to the new frame, all other
flag bits copied from the old PTE. -/
theorem cow_new_frame_props (x f : Nat) (hf : f < 2 ^ 20) :
    (f * 4096 ||| (((x &&& 0xFFF) ||| 2) &&& 0xFFFFFDFF)) &&& 2 ≠ 0 ∧
    (f * 4096 ||| (((x &&& 0xFFF) ||| 2) &&& 0xFFFFFDFF)) &&& 0x200 = 0 ∧
    (f * 4096 ||| (((x &&& 0xFFF) ||| 2) &&& 0xFFFFFDFF)) &&& 0xFFFFF000 = f * 4096 ∧
    (f * 4096 ||| (((x &&& 0xFFF) ||| 2) &&& 0xFFFFFDFF)) &&& 0xDFD = x &&& 0xDFD := by
  have hnf32 : f * 4096 < 2 ^ 32 := by
    calc f * 4096 < 2 ^ 20 * 4096 := by
          exact Nat.mul_lt_mul_of_lt_of_le hf (le_refl 4096) (by norm_num)
      _ = 2 ^ 32 := by norm_num
  refine ⟨?_, ?_, ?_, ?_⟩
  · rw [show (2 : Nat) = 2 ^ 1 by norm_num, and_flag_ne_iff]
    simp [Nat.testBit_land, Nat.testBit_lor, tb_two, tb_not_cow, tb_fff]
  · apply Nat.eq_of_testBit_eq
    intro n
    simp only [Nat.testBit_land, Nat.testBit_lor, tb_two, tb_cow, tb_not_cow,
      tb_fff, Nat.zero_testBit]
    by_cases h9 : n = 9
    · subst h9
      rw [tb_mul4096_low f 9 (by norm_num)]
      simp
    · simp [h9]
  · apply Nat.eq_of_testBit_eq
    intro n
    simp only [Nat.testBit_land, Nat.testBit_lor, tb_two, tb_not_cow, tb_fff, tb_frame]
    by_cases h12 : n < 12
    · rw [tb_mul4096_low f n h12]
      have h12n : ¬ 12 ≤ n := by omega
      simp [h12n]
    · by_cases h32 : n < 32
      · have h12' : 12 ≤ n := by omega
        have h1 : ¬ n = 1 := by omega
        have h9 : ¬ n = 9 := by omega
        simp [h12, h12', h32, h1, h9]
      · rw [tb_high n hnf32 (by omega)]
        simp [h12, h32]
  · apply Nat.eq_of_testBit_eq
    intro n
    simp only [Nat.testBit_land, Nat.testBit_lor, tb_two, tb_not_cow, tb_fff, tb_dfd]
    by_cases h1 : n = 1
    · subst h1; simp
    · by_cases h9 : n = 9
      · subst h9; simp
      · by_cases h12 : n < 12
        · have h32 : n < 32 := by omega
          rw [tb_mul4096_low f n h12]
          simp [h1, h9, h12, h32]
        · simp [h1, h9, h12]

/-- Unfolding lemma for a successful allocation from the modelled PMM. -/
theorem pmm_alloc_block_some {p p1 : Pmm} {a : Nat}
    (h : pmm_alloc_block p = (p1, some a)) :
    ∃ f, pmm_first_free p = some f ∧ a = f * 4096 ∧ p.bits f = false ∧
      f < p.nframes ∧
      p1 = { p with bits := fun i => if i = f then true else p.bits i,
                    refs := fun i => if i = f then 1 else p.refs i } := by
  unfold pmm_alloc_block at h
  cases hff : pmm_first_free p with
  | none =>
    rw [hff] at h
    exact absurd h (by simp)
  | some f =>
    rw [hff] at h
    rw [Prod.ext_iff] at h
    obtain ⟨h1, h2⟩ := h
    have ha : a = f * 4096 := by
      simpa using h2.symm
    have hsat : (!p.bits f) = true := by
      have := List.find?_some (by unfold pmm_first_free at hff; exact hff)
      simpa using this
    have hmem : f < p.nframes := by
      have := List.mem_of_find?_eq_some (by unfold pmm_first_free at hff; exact hff)
      simpa [List.mem_range] using this
    exact ⟨f, rfl, ha, by simpa using hsat, hmem, h1.symm⟩

/-- C3 (amended): for a write fault (error code has Present and Write
set) on a Present, COW-marked PTE, the handler resolves the fault and
returns, invalidating the TLB entry for the faulting address: with
refcount 1 it makes the existing entry Writable and clears COW in place,
touching nothing else; with refcount not 1 it requires a free frame —
it copies the old frame into the newly allocated one, repoints the PTE at
it with Writable set, COW clear and all other flags kept, and drops one
reference to the old frame via pmm_free_block (the frame stays in use
for the remaining owners).  When no free frame exists in the shared case,
the handler does not return: it hangs in the out-of-memory loop. -/
theorem page_fault_cow_resolution
    (σ : VmmState) (cr3 fa err : Nat)
    (hp : err &&& 0x1 ≠ 0) (hw : err &&& 0x2 ≠ 0)
    (hpde : σ.mem cr3 (fa >>> 22) &&& I86_PTE_PRESENT ≠ 0)
    (pt_phys pte old_frame : Nat)
    (hpt : pt_phys = σ.mem cr3 (fa >>> 22) &&& I86_PTE_FRAME)
    (hpte : pte = σ.mem pt_phys ((fa >>> 12) &&& 0x03FF))
    (hpres : pte &&& I86_PTE_PRESENT ≠ 0)
    (hcow : pte &&& I86_PTE_COW ≠ 0)
    (hold : old_frame = pte &&& I86_PTE_FRAME) :
    (pmm_get_ref σ.pmm old_frame = 1 →
      ∃ σ1, page_fault_handler σ cr3 fa err = PFResult.resolved σ1 fa ∧
        σ1.pmm = σ.pmm ∧
        σ1.mem pt_phys ((fa >>> 12) &&& 0x03FF) &&& I86_PTE_WRITABLE ≠ 0 ∧
        σ1.mem pt_phys ((fa >>> 12) &&& 0x03FF) &&& I86_PTE_COW = 0 ∧
        σ1.mem pt_phys ((fa >>> 12) &&& 0x03FF) &&& I86_PTE_FRAME = old_frame ∧
        σ1.mem pt_phys ((fa >>> 12) &&& 0x03FF) &&& 0xDFD = pte &&& 0xDFD ∧
        (∀ a b, ¬(a = pt_phys ∧ b = ((fa >>> 12) &&& 0x03FF)) →
          σ1.mem a b = σ.mem a b)) ∧
    (pmm_get_ref σ.pmm old_frame ≠ 1 →
      σ.pmm.nframes ≤ 2 ^ 20 →
      σ.pmm.bits (pt_phys / 4096) = true →
      σ.pmm.bits (old_frame / 4096) = true →
      ∀ p1 nf, pmm_alloc_block σ.pmm = (p1, some nf) →
        ∃ σ1, page_fault_handler σ cr3 fa err = PFResult.resolved σ1 fa ∧
          σ1.mem pt_phys ((fa >>> 12) &&& 0x03FF) &&& I86_PTE_WRITABLE ≠ 0 ∧
          σ1.mem pt_phys ((fa >>> 12) &&& 0x03FF) &&& I86_PTE_COW = 0 ∧
          σ1.mem pt_phys ((fa >>> 12) &&& 0x03FF) &&& I86_PTE_FRAME = nf ∧
          σ1.mem pt_phys ((fa >>> 12) &&& 0x03FF) &&& 0xDFD = pte &&& 0xDFD ∧
          (∀ b, σ1.mem nf b = σ.mem old_frame b) ∧
          σ1.pmm.refs (old_frame / 4096) = σ.pmm.refs (old_frame / 4096) - 1 ∧
          (2 ≤ σ.pmm.refs (old_frame / 4096) → σ1.pmm.bits (old_frame / 4096) = true) ∧
          σ1.pmm.refs (nf / 4096) = 1) ∧
    (pmm_get_ref σ.pmm old_frame ≠ 1 → pmm_first_free σ.pmm = none →
      page_fault_handler σ cr3 fa err = PFResult.oomHang) := by
  subst hpt
  subst hpte
  subst hold
  refine ⟨?_, ?_, ?_⟩
  · intro hr1
    unfold page_fault_handler
    rw [if_pos ⟨hp, hw⟩, if_pos hpde, if_pos hpres, if_pos hcow, if_pos hr1]
    refine ⟨_, rfl, rfl, ?_, ?_, ?_, ?_, ?_⟩
    · simp only [writeWord, and_self, if_pos]
      unfold I86_PTE_WRITABLE
      exact (cow_set_props _).1
    · simp only [writeWord, and_self, if_pos]
      unfold I86_PTE_COW NOT_COW
      exact (cow_set_props _).2.1
    · simp only [writeWord, and_self, if_pos]
      unfold I86_PTE_FRAME NOT_COW
      exact (cow_set_props _).2.2.1
    · simp only [writeWord, and_self, if_pos]
      unfold NOT_COW
      exact (cow_set_props _).2.2.2
    · intro a b hab
      simp [writeWord, hab]
  · intro hr1 hn20 hbpt hbold p1 nf halloc
    obtain ⟨f, hff, hnf, hbf, hflt, hp1⟩ := pmm_alloc_block_some halloc
    have hf20 : f < 2 ^ 20 := by omega
    have hfr : nf / 4096 = f := by
      rw [hnf]
      exact Nat.mul_div_cancel f (by norm_num)
    have hptf : (σ.mem cr3 (fa >>> 22) &&& I86_PTE_FRAME) / 4096 ≠ f := by
      intro hcon
      rw [hcon] at hbpt
      rw [hbpt] at hbf
      exact Bool.noConfusion hbf
    have holdf : (σ.mem (σ.mem cr3 (fa >>> 22) &&& I86_PTE_FRAME)
        ((fa >>> 12) &&& 0x03FF) &&& I86_PTE_FRAME) / 4096 ≠ f := by
      intro hcon
      rw [hcon] at hbold
      rw [hbold] at hbf
      exact Bool.noConfusion hbf
    have hptne : σ.mem cr3 (fa >>> 22) &&& I86_PTE_FRAME ≠ nf := by
      intro hcon
      apply hptf
      rw [hcon]
      exact hfr
    unfold page_fault_handler
    rw [if_pos ⟨hp, hw⟩, if_pos hpde, if_pos hpres, if_pos hcow, if_neg hr1, halloc]
    refine ⟨_, rfl, ?_, ?_, ?_, ?_, ?_, ?_, ?_, ?_⟩
    · simp only [writeWord, and_self, if_true, ite_true, copy_page_physical]
      rw [if_neg hptne, hnf]
      unfold I86_PTE_WRITABLE
      exact (cow_new_frame_props _ f hf20).1
    · simp only [writeWord, and_self, if_true, ite_true, copy_page_physical]
      rw [if_neg hptne, hnf]
      unfold I86_PTE_COW NOT_COW
      exact (cow_new_frame_props _ f hf20).2.1
    · simp only [writeWord, and_self, if_true, ite_true, copy_page_physical]
      rw [if_neg hptne, hnf]
      unfold I86_PTE_FRAME NOT_COW
      exact (cow_new_frame_props _ f hf20).2.2.1
    · simp only [writeWord, and_self, if_true, ite_true, copy_page_physical]
      rw [if_neg hptne, hnf]
      unfold NOT_COW
      exact (cow_new_frame_props _ f hf20).2.2.2
    · intro b
      simp [writeWord, copy_page_physical, hptne.symm]
    · unfold pmm_free_block
      rw [hp1]
      simp only [copy_page_physical]
      simp [holdf]
    · intro h2
      unfold pmm_free_block
      rw [hp1]
      simp only []
      have hr1' : (if (σ.mem (σ.mem cr3 (fa >>> 22) &&& I86_PTE_FRAME)
          ((fa >>> 12) &&& 0x03FF) &&& I86_PTE_FRAME) / 4096 = f then 1
          else σ.pmm.refs ((σ.mem (σ.mem cr3 (fa >>> 22) &&& I86_PTE_FRAME)
          ((fa >>> 12) &&& 0x03FF) &&& I86_PTE_FRAME) / 4096)) - 1 ≠ 0 := by
        rw [if_neg holdf]
        omega
      simp only [hr1', if_neg, if_false, ite_false]
      simp [holdf, hbold]
    · unfold pmm_free_block
      rw [hp1, hfr]
      simp [Ne.symm holdf]
  · intro hr1 hff
    unfold page_fault_handler
    rw [if_pos ⟨hp, hw⟩, if_pos hpde, if_pos hpres, if_pos hcow, if_neg hr1]
    unfold pmm_alloc_block
    rw [hff]

/-- C3: the claim states that EVERY write fault on a Present, COW PTE is
resolved, returning to the task.  Counterexample: with the COW frame
shared (refcount 2) and no free frame left, the handler hits the
out-of-memory branch in src/cpu/isr.c lines 128-132 and spins in
while(1) instead of returning. -/
theorem page_fault_cow_oom_no_return :
    page_fault_handler σcowOOM 4096 0x1234 0x7 = PFResult.oomHang ∧
    ∀ σ1 inval, page_fault_handler σcowOOM 4096 0x1234 0x7 ≠ PFResult.resolved σ1 inval := by
  have h : page_fault_handler σcowOOM 4096 0x1234 0x7 = PFResult.oomHang := rfl
  refine ⟨h, fun σ1 inval hc => ?_⟩
  rw [h] at hc
  exact PFResult.noConfusion hc

/-- C3 witness: the amended theorem applied at a concrete exclusive COW
fault (refcount 1: in-place upgrade) and at a concrete shared COW fault
(refcount 2: duplication into frame 16384). -/
theorem page_fault_cow_resolution_witness :
    (∃ σ1, page_fault_handler σcow1 4096 0x1234 0x7 = PFResult.resolved σ1 0x1234 ∧
        σ1.pmm = σcow1.pmm ∧
        σ1.mem 8192 ((0x1234 >>> 12) &&& 0x03FF) &&& I86_PTE_WRITABLE ≠ 0 ∧
        σ1.mem 8192 ((0x1234 >>> 12) &&& 0x03FF) &&& I86_PTE_COW = 0 ∧
        σ1.mem 8192 ((0x1234 >>> 12) &&& 0x03FF) &&& I86_PTE_FRAME = 12288 ∧
        σ1.mem 8192 ((0x1234 >>> 12) &&& 0x03FF) &&& 0xDFD = 12805 &&& 0xDFD ∧
        (∀ a b, ¬(a = 8192 ∧ b = ((0x1234 >>> 12) &&& 0x03FF)) →
          σ1.mem a b = σcow1.mem a b)) ∧
    (∃ σ1, page_fault_handler σcow2 4096 0x1234 0x7 = PFResult.resolved σ1 0x1234 ∧
        σ1.mem 8192 ((0x1234 >>> 12) &&& 0x03FF) &&& I86_PTE_WRITABLE ≠ 0 ∧
        σ1.mem 8192 ((0x1234 >>> 12) &&& 0x03FF) &&& I86_PTE_COW = 0 ∧
        σ1.mem 8192 ((0x1234 >>> 12) &&& 0x03FF) &&& I86_PTE_FRAME = 16384 ∧
        σ1.mem 8192 ((0x1234 >>> 12) &&& 0x03FF) &&& 0xDFD = 12805 &&& 0xDFD ∧
        (∀ b, σ1.mem 16384 b = σcow2.mem 12288 b) ∧
        σ1.pmm.refs (12288 / 4096) = σcow2.pmm.refs (12288 / 4096) - 1 ∧
        (2 ≤ σcow2.pmm.refs (12288 / 4096) → σ1.pmm.bits (12288 / 4096) = true) ∧
        σ1.pmm.refs (16384 / 4096) = 1) :=
  ⟨(page_fault_cow_resolution σcow1 4096 0x1234 0x7 (by decide) (by decide)
      (by decide) 8192 12805 12288 (by decide) (by decide) (by decide) (by decide)
      (by decide)).1 (by decide),
   (page_fault_cow_resolution σcow2 4096 0x1234 0x7 (by decide) (by decide)
      (by decide) 8192 12805 12288 (by decide) (by decide) (by decide) (by decide)
      (by decide)).2.1 (by decide) (by decide) (by decide) (by decide)
      (pmm_alloc_block σcow2.pmm).1 16384 rfl⟩

/-! ### Helper lemmas for the clone inner loop -/

theorem clonePteStep_mem_other (srcT dstT j : Nat) (σ : VmmState) (a b : Nat)
    (h : (a ≠ srcT ∧ a ≠ dstT) ∨ b ≠ j) :
    (clonePteStep srcT dstT j σ).mem a b = σ.mem a b := by
  unfold clonePteStep
  dsimp only
  split
  · by_cases hw : (σ.mem srcT j &&& 0x0FFF) &&& I86_PTE_WRITABLE ≠ 0
    · rw [if_pos hw]
      rcases h with ⟨h1, h2⟩ | hbj
      · simp [writeWord, h1, h2]
      · simp [writeWord, hbj]
    · rw [if_neg hw]
      rcases h with ⟨h1, h2⟩ | hbj
      · simp [writeWord, h2]
      · simp [writeWord, hbj]
  · rfl

theorem frame_or_flags_eq (x : Nat) (hx : x < 2 ^ 32) :
    (x &&& 0xFFFFF000) ||| (x &&& 0xFFF) = x := by
  apply Nat.eq_of_testBit_eq
  intro n
  simp only [Nat.testBit_land, Nat.testBit_lor, tb_frame, tb_fff]
  by_cases h12 : n < 12
  · have h12n : ¬ 12 ≤ n := by omega
    simp [h12, h12n]
  · by_cases h32 : n < 32
    · have h12' : 12 ≤ n := by omega
      simp [h12, h12', h32]
    · rw [tb_high n hx (by omega)]
      simp [h12, h32]

theorem clonePteStep_values (srcT dstT j : Nat) (σ : VmmState)
    (hne : srcT ≠ dstT) (hp : σ.mem srcT j &&& I86_PTE_PRESENT ≠ 0)
    (h32 : σ.mem srcT j < 2 ^ 32) :
    (clonePteStep srcT dstT j σ).mem srcT j = cowTransform (σ.mem srcT j) ∧
    (clonePteStep srcT dstT j σ).mem dstT j = cowTransform (σ.mem srcT j) := by
  unfold clonePteStep cowTransform
  dsimp only
  rw [if_pos hp]
  by_cases hw : (σ.mem srcT j &&& 0x0FFF) &&& I86_PTE_WRITABLE ≠ 0
  · rw [if_pos hw, if_pos hw]
    constructor
    · simp [writeWord, hne]
    · simp [writeWord]
  · rw [if_neg hw, if_neg hw]
    constructor
    · simp only [writeWord]
      rw [if_neg (fun hc => hne (And.left hc))]
      unfold I86_PTE_FRAME
      exact (frame_or_flags_eq (σ.mem srcT j) h32).symm
    · simp [writeWord]

theorem clonePteStep_pmm (srcT dstT j : Nat) (σ : VmmState) :
    (clonePteStep srcT dstT j σ).pmm.bits = σ.pmm.bits ∧
    (clonePteStep srcT dstT j σ).pmm.nframes = σ.pmm.nframes ∧
    ∀ g, (clonePteStep srcT dstT j σ).pmm.refs g =
      σ.pmm.refs g +
        (if σ.mem srcT j &&& I86_PTE_PRESENT ≠ 0 ∧
            (σ.mem srcT j &&& I86_PTE_FRAME) / 4096 = g then 1 else 0) := by
  unfold clonePteStep pmm_inc_ref
  dsimp only
  by_cases hp : σ.mem srcT j &&& I86_PTE_PRESENT ≠ 0
  · rw [if_pos hp]
    by_cases hw : (σ.mem srcT j &&& 0x0FFF) &&& I86_PTE_WRITABLE ≠ 0
    · rw [if_pos hw]
      refine ⟨rfl, rfl, ?_⟩
      intro g
      by_cases hg : (σ.mem srcT j &&& I86_PTE_FRAME) / 4096 = g
      · simp [hg, hp]
      · have : ¬ (σ.mem srcT j &&& I86_PTE_PRESENT ≠ 0 ∧
            (σ.mem srcT j &&& I86_PTE_FRAME) / 4096 = g) := fun hc => hg hc.2
        have hg2 : ¬ g = (σ.mem srcT j &&& I86_PTE_FRAME) / 4096 :=
          fun hc => hg hc.symm
        simp [this, hg2]
    · rw [if_neg hw]
      refine ⟨rfl, rfl, ?_⟩
      intro g
      by_cases hg : (σ.mem srcT j &&& I86_PTE_FRAME) / 4096 = g
      · simp [hg, hp]
      · have : ¬ (σ.mem srcT j &&& I86_PTE_PRESENT ≠ 0 ∧
            (σ.mem srcT j &&& I86_PTE_FRAME) / 4096 = g) := fun hc => hg hc.2
        have hg2 : ¬ g = (σ.mem srcT j &&& I86_PTE_FRAME) / 4096 :=
          fun hc => hg hc.symm
        simp [this, hg2]
  · rw [if_neg hp]
    refine ⟨rfl, rfl, ?_⟩
    intro g
    have : ¬ (σ.mem srcT j &&& I86_PTE_PRESENT ≠ 0 ∧
        (σ.mem srcT j &&& I86_PTE_FRAME) / 4096 = g) := fun hc => hp hc.1
    simp [this]

theorem clonePteLoop_mem_other (srcT dstT : Nat) (js : List Nat) :
    ∀ (σ : VmmState) (a b : Nat), a ≠ srcT → a ≠ dstT →
      (clonePteLoop srcT dstT js σ).mem a b = σ.mem a b := by
  induction js with
  | nil => intro σ a b _ _; rfl
  | cons j rest ih =>
    intro σ a b h1 h2
    unfold clonePteLoop
    rw [ih (clonePteStep srcT dstT j σ) a b h1 h2]
    exact clonePteStep_mem_other srcT dstT j σ a b (Or.inl ⟨h1, h2⟩)

theorem clonePteLoop_mem_notin (srcT dstT : Nat) (js : List Nat) :
    ∀ (σ : VmmState) (a b : Nat), b ∉ js →
      (clonePteLoop srcT dstT js σ).mem a b = σ.mem a b := by
  induction js with
  | nil => intro σ a b _; rfl
  | cons j rest ih =>
    intro σ a b hb
    unfold clonePteLoop
    rw [ih (clonePteStep srcT dstT j σ) a b (fun hc => hb (List.mem_cons_of_mem j hc))]
    exact clonePteStep_mem_other srcT dstT j σ a b
      (Or.inr (fun hc => hb (hc ▸ List.mem_cons_self j rest)))

theorem frameIncCount_congr {m1 m0 : Nat → Nat → Nat} {srcT : Nat} {js : List Nat}
    {g : Nat} (h : ∀ j ∈ js, m1 srcT j = m0 srcT j) :
    frameIncCount m1 srcT js g = frameIncCount m0 srcT js g := by
  unfold frameIncCount
  apply List.countP_congr
  intro j hj
  rw [h j hj]

theorem clonePteLoop_pmm (srcT dstT : Nat) (js : List Nat) :
    ∀ (σ : VmmState), js.Nodup →
      (clonePteLoop srcT dstT js σ).pmm.bits = σ.pmm.bits ∧
      (clonePteLoop srcT dstT js σ).pmm.nframes = σ.pmm.nframes ∧
      ∀ g, (clonePteLoop srcT dstT js σ).pmm.refs g =
        σ.pmm.refs g + frameIncCount σ.mem srcT js g := by
  induction js with
  | nil =>
    intro σ _
    exact ⟨rfl, rfl, fun g => by simp [clonePteLoop, frameIncCount]⟩
  | cons j rest ih =>
    intro σ hnd
    obtain ⟨hjn, hnd'⟩ := List.nodup_cons.mp hnd
    obtain ⟨ihb, ihn, ihr⟩ := ih (clonePteStep srcT dstT j σ) hnd'
    obtain ⟨sb, sn, sr⟩ := clonePteStep_pmm srcT dstT j σ
    refine ⟨?_, ?_, ?_⟩
    · show (clonePteLoop srcT dstT rest (clonePteStep srcT dstT j σ)).pmm.bits = _
      rw [ihb, sb]
    · show (clonePteLoop srcT dstT rest (clonePteStep srcT dstT j σ)).pmm.nframes = _
      rw [ihn, sn]
    · intro g
      show (clonePteLoop srcT dstT rest (clonePteStep srcT dstT j σ)).pmm.refs g = _
      rw [ihr g, sr g]
      have hcg : frameIncCount (clonePteStep srcT dstT j σ).mem srcT rest g =
          frameIncCount σ.mem srcT rest g := by
        apply frameIncCount_congr
        intro j' hj'
        exact clonePteStep_mem_other srcT dstT j σ srcT j'
          (Or.inr (fun hc => hjn (hc ▸ hj')))
      rw [hcg]
      unfold frameIncCount
      rw [List.countP_cons]
      by_cases hc : σ.mem srcT j &&& I86_PTE_PRESENT ≠ 0 ∧
          (σ.mem srcT j &&& I86_PTE_FRAME) / 4096 = g
      · simp only [hc.1, hc.2]
        simp [hc]
        omega
      · have h1 : (decide (σ.mem srcT j &&& I86_PTE_PRESENT ≠ 0) &&
            decide ((σ.mem srcT j &&& I86_PTE_FRAME) / 4096 = g)) = false := by
          rw [Bool.and_eq_false_iff]
          by_cases hp : σ.mem srcT j &&& I86_PTE_PRESENT ≠ 0
          · right
            have : ¬ (σ.mem srcT j &&& I86_PTE_FRAME) / 4096 = g :=
              fun hcg2 => hc ⟨hp, hcg2⟩
            simpa using this
          · left
            simpa using hp
        rw [h1]
        simp [hc]

theorem clonePteLoop_values (srcT dstT : Nat) (hne : srcT ≠ dstT) (js : List Nat) :
    ∀ (σ : VmmState), js.Nodup → ∀ j ∈ js, σ.mem srcT j &&& I86_PTE_PRESENT ≠ 0 →
      σ.mem srcT j < 2 ^ 32 →
      (clonePteLoop srcT dstT js σ).mem srcT j = cowTransform (σ.mem srcT j) ∧
      (clonePteLoop srcT dstT js σ).mem dstT j = cowTransform (σ.mem srcT j) := by
  induction js with
  | nil => intro σ _ j hj; cases hj
  | cons j0 rest ih =>
    intro σ hnd j hj hp h32
    obtain ⟨hj0n, hnd'⟩ := List.nodup_cons.mp hnd
    rcases List.mem_cons.mp hj with rfl | hjr
    · constructor
      · show (clonePteLoop srcT dstT rest (clonePteStep srcT dstT j σ)).mem srcT j = _
        rw [clonePteLoop_mem_notin srcT dstT rest _ srcT j hj0n]
        exact (clonePteStep_values srcT dstT j σ hne hp h32).1
      · show (clonePteLoop srcT dstT rest (clonePteStep srcT dstT j σ)).mem dstT j = _
        rw [clonePteLoop_mem_notin srcT dstT rest _ dstT j hj0n]
        exact (clonePteStep_values srcT dstT j σ hne hp h32).2
    · have hj0 : j ≠ j0 := fun hcon => hj0n (hcon ▸ hjr)
      have hstep : (clonePteStep srcT dstT j0 σ).mem srcT j = σ.mem srcT j :=
        clonePteStep_mem_other srcT dstT j0 σ srcT j (Or.inr hj0)
      have hp' : (clonePteStep srcT dstT j0 σ).mem srcT j &&& I86_PTE_PRESENT ≠ 0 := by
        rw [hstep]; exact hp
      have h32' : (clonePteStep srcT dstT j0 σ).mem srcT j < 2 ^ 32 := by
        rw [hstep]; exact h32
      have hrec := ih (clonePteStep srcT dstT j0 σ) hnd' j hjr hp' h32'
      rw [hstep] at hrec
      exact hrec

/-! ### Helper lemmas for the clone outer loop -/

theorem or_flags_frame (f flags : Nat) (hf : f < 2 ^ 20) (hfl : flags < 4096) :
    (f * 4096 ||| flags) &&& 0xFFFFF000 = f * 4096 := by
  have hnf32 : f * 4096 < 2 ^ 32 := by
    calc f * 4096 < 2 ^ 20 * 4096 :=
          Nat.mul_lt_mul_of_lt_of_le hf (le_refl 4096) (by norm_num)
      _ = 2 ^ 32 := by norm_num
  have hfl' : flags < 2 ^ 12 := by norm_num at hfl ⊢; omega
  apply Nat.eq_of_testBit_eq
  intro n
  simp only [Nat.testBit_land, Nat.testBit_lor, tb_frame]
  by_cases h12 : n < 12
  · rw [tb_mul4096_low f n h12]
    have h12n : ¬ 12 ≤ n := by omega
    simp [h12n]
  · by_cases h32 : n < 32
    · have h12' : 12 ≤ n := by omega
      have hflb : flags.testBit n = false :=
        Nat.testBit_lt_two_pow (by calc flags < 2 ^ 12 := hfl'
          _ ≤ 2 ^ n := Nat.pow_le_pow_right (by norm_num) h12')
      simp [h12', h32, hflb]
    · rw [tb_high n hnf32 (by omega)]
      simp [h32]

theorem or_flags_low (f flags : Nat) (hfl : flags < 4096) :
    (f * 4096 ||| flags) &&& 0xFFF = flags := by
  have hfl' : flags < 2 ^ 12 := by norm_num at hfl ⊢; omega
  apply Nat.eq_of_testBit_eq
  intro n
  simp only [Nat.testBit_land, Nat.testBit_lor, tb_fff]
  by_cases h12 : n < 12
  · rw [tb_mul4096_low f n h12]
    simp [h12]
  · have hflb : flags.testBit n = false :=
      Nat.testBit_lt_two_pow (by calc flags < 2 ^ 12 := hfl'
        _ ≤ 2 ^ n := Nat.pow_le_pow_right (by norm_num) (by omega))
    simp [h12, hflb]

theorem addr_ne_of_bits {p : Pmm} {X f : Nat} (hX : p.bits (X / 4096) = true)
    (hf : p.bits f = false) : X ≠ f * 4096 := by
  intro hc
  rw [hc, Nat.mul_div_cancel f (by norm_num)] at hX
  rw [hX] at hf
  exact Bool.noConfusion hf

theorem dirIncCount_cons (m : Nat → Nat → Nat) (srcPhys i : Nat) (rest : List Nat)
    (g : Nat) :
    dirIncCount m srcPhys (i :: rest) g =
      (if m srcPhys i &&& I86_PTE_PRESENT ≠ 0 then
        frameIncCount m (m srcPhys i &&& 0xFFFFF000) (List.range 1024) g else 0) +
      dirIncCount m srcPhys rest g := by
  unfold dirIncCount
  rw [List.map_cons, List.sum_cons]

theorem dirIncCount_congr {m1 m0 : Nat → Nat → Nat} {srcPhys : Nat} {is : List Nat}
    {g : Nat}
    (hsrc : ∀ i ∈ is, m1 srcPhys i = m0 srcPhys i)
    (htab : ∀ i ∈ is, m0 srcPhys i &&& I86_PTE_PRESENT ≠ 0 →
      ∀ j ∈ List.range 1024,
        m1 (m0 srcPhys i &&& 0xFFFFF000) j = m0 (m0 srcPhys i &&& 0xFFFFF000) j) :
    dirIncCount m1 srcPhys is g = dirIncCount m0 srcPhys is g := by
  induction is with
  | nil => rfl
  | cons i rest ih =>
    rw [dirIncCount_cons, dirIncCount_cons]
    have hs := hsrc i (List.mem_cons_self i rest)
    rw [hs]
    have hrest : dirIncCount m1 srcPhys rest g = dirIncCount m0 srcPhys rest g :=
      ih (fun i' hi' => hsrc i' (List.mem_cons_of_mem i hi'))
        (fun i' hi' => htab i' (List.mem_cons_of_mem i hi'))
    rw [hrest]
    by_cases hp : m0 srcPhys i &&& I86_PTE_PRESENT ≠ 0
    · rw [if_pos hp, if_pos hp]
      have hc : frameIncCount m1 (m0 srcPhys i &&& 0xFFFFF000) (List.range 1024) g =
          frameIncCount m0 (m0 srcPhys i &&& 0xFFFFF000) (List.range 1024) g :=
        frameIncCount_congr (fun j hj => htab i (List.mem_cons_self i rest) hp j hj)
      rw [hc]
    · rw [if_neg hp, if_neg hp]

theorem clonePdeStep_present (srcPhys dirPhys i : Nat) (σ : VmmState) (p1 : Pmm)
    (t : Nat)
    (hpres : ¬ σ.mem srcPhys i &&& I86_PTE_PRESENT = 0)
    (halloc : pmm_alloc_block σ.pmm = (p1, some t))
    (hts : srcPhys ≠ t) (hsd : srcPhys ≠ dirPhys) :
    clonePdeStep srcPhys dirPhys i σ =
      (clonePteLoop (σ.mem srcPhys i &&& 0xFFFFF000) t (List.range 1024)
        (VmmState.mk (writeWord (zeroFrame σ.mem t) dirPhys i
          (t ||| (σ.mem srcPhys i &&& 0x0FFF))) p1), true) := by
  unfold clonePdeStep
  rw [if_neg hpres, halloc]
  dsimp only
  have hz : zeroFrame σ.mem t srcPhys i = σ.mem srcPhys i := by
    unfold zeroFrame
    rw [if_neg hts]
  rw [hz]
  have hw : writeWord (zeroFrame σ.mem t) dirPhys i
      (t ||| (σ.mem srcPhys i &&& 0x0FFF)) srcPhys i = σ.mem srcPhys i := by
    unfold writeWord
    rw [if_neg (fun hc => hsd (And.left hc))]
    exact hz
  rw [hw]

/-- Full characterization of a successful run of the clone outer loop:
frame preservation for rows of in-use frames, refcount accounting,
bitmap monotonicity, directory columns outside the index list untouched,
and the per-table entry transformation. -/
theorem clonePdeLoop_spec (srcPhys dirPhys : Nat) :
    ∀ (is : List Nat) (σ σ3 : VmmState),
      clonePdeLoop srcPhys dirPhys is σ = (σ3, true) →
      is.Nodup →
      σ.pmm.nframes ≤ 2 ^ 20 →
      σ.pmm.bits (srcPhys / 4096) = true →
      σ.pmm.bits (dirPhys / 4096) = true →
      srcPhys ≠ dirPhys →
      (∀ i ∈ is, σ.mem srcPhys i &&& I86_PTE_PRESENT ≠ 0 →
        σ.pmm.bits ((σ.mem srcPhys i &&& 0xFFFFF000) / 4096) = true ∧
        σ.mem srcPhys i &&& 0xFFFFF000 ≠ srcPhys ∧
        σ.mem srcPhys i &&& 0xFFFFF000 ≠ dirPhys) →
      (∀ i ∈ is, ∀ i2 ∈ is, i ≠ i2 → σ.mem srcPhys i &&& I86_PTE_PRESENT ≠ 0 →
        σ.mem srcPhys i2 &&& I86_PTE_PRESENT ≠ 0 →
        σ.mem srcPhys i &&& 0xFFFFF000 ≠ σ.mem srcPhys i2 &&& 0xFFFFF000) →
      (∀ i ∈ is, σ.mem srcPhys i &&& I86_PTE_PRESENT ≠ 0 → ∀ j, j < 1024 →
        σ.mem (σ.mem srcPhys i &&& 0xFFFFF000) j &&& I86_PTE_PRESENT ≠ 0 →
        σ.pmm.bits
          ((σ.mem (σ.mem srcPhys i &&& 0xFFFFF000) j &&& I86_PTE_FRAME) / 4096) = true ∧
        σ.mem (σ.mem srcPhys i &&& 0xFFFFF000) j < 2 ^ 32) →
      ((∀ X, σ.pmm.bits (X / 4096) = true → X ≠ dirPhys →
          (∀ i ∈ is, σ.mem srcPhys i &&& I86_PTE_PRESENT ≠ 0 →
            X ≠ σ.mem srcPhys i &&& 0xFFFFF000) →
          ∀ b, σ3.mem X b = σ.mem X b) ∧
       (∀ g, σ.pmm.bits g = true →
          σ3.pmm.refs g = σ.pmm.refs g + dirIncCount σ.mem srcPhys is g) ∧
       (∀ g, σ.pmm.bits g = true → σ3.pmm.bits g = true) ∧
       σ3.pmm.nframes = σ.pmm.nframes ∧
       (∀ b, b ∉ is → σ3.mem dirPhys b = σ.mem dirPhys b) ∧
       (∀ i ∈ is, σ.mem srcPhys i &&& I86_PTE_PRESENT ≠ 0 →
          σ3.mem dirPhys i &&& 0x0FFF = σ.mem srcPhys i &&& 0x0FFF ∧
          ∀ j, j < 1024 →
            σ.mem (σ.mem srcPhys i &&& 0xFFFFF000) j &&& I86_PTE_PRESENT ≠ 0 →
            σ3.mem (σ.mem srcPhys i &&& 0xFFFFF000) j =
              cowTransform (σ.mem (σ.mem srcPhys i &&& 0xFFFFF000) j) ∧
            σ3.mem (σ3.mem dirPhys i &&& 0xFFFFF000) j =
              cowTransform (σ.mem (σ.mem srcPhys i &&& 0xFFFFF000) j))) := by
  intro is
  induction is with
  | nil =>
    intro σ σ3 hrun _ _ _ _ _ _ _ _
    have hσ : σ3 = σ := by
      unfold clonePdeLoop at hrun
      exact (Prod.ext_iff.mp hrun).1.symm
    subst hσ
    refine ⟨fun X _ _ _ b => rfl, fun g _ => by simp [dirIncCount],
      fun g h => h, rfl, fun b _ => rfl, fun i hi => absurd hi (List.not_mem_nil i)⟩
  | cons i rest ih =>
    intro σ σ3 hrun hnd hn20 hsb hdb hsd htb htd hfb
    obtain ⟨hin, hnd'⟩ := List.nodup_cons.mp hnd
    by_cases hpres : σ.mem srcPhys i &&& I86_PTE_PRESENT = 0
    · -- absent PDE: the step is a no-op
      have hrun' : clonePdeLoop srcPhys dirPhys rest σ = (σ3, true) := by
        unfold clonePdeLoop clonePdeStep at hrun
        rw [if_pos hpres] at hrun
        exact hrun
      obtain ⟨A, B, C, D, G, E⟩ := ih σ σ3 hrun' hnd' hn20 hsb hdb hsd
        (fun i' hi' => htb i' (List.mem_cons_of_mem i hi'))
        (fun i' hi' i2 hi2 => htd i' (List.mem_cons_of_mem i hi')
          i2 (List.mem_cons_of_mem i hi2))
        (fun i' hi' => hfb i' (List.mem_cons_of_mem i hi'))
      refine ⟨?_, ?_, C, D, ?_, ?_⟩
      · intro X hX hXd hXt b
        exact A X hX hXd (fun i' hi' => hXt i' (List.mem_cons_of_mem i hi')) b
      · intro g hg
        rw [B g hg, dirIncCount_cons]
        simp [hpres]
      · intro b hb
        exact G b (fun hc => hb (List.mem_cons_of_mem i hc))
      · intro i' hi' hp'
        rcases List.mem_cons.mp hi' with rfl | hir
        · exact absurd hp' (by simp [hpres])
        · exact E i' hir hp'
    · -- present PDE
      have hrun1 : clonePdeLoop srcPhys dirPhys (i :: rest) σ =
          match clonePdeStep srcPhys dirPhys i σ with
          | (σ1, false) => (σ1, false)
          | (σ1, true) => clonePdeLoop srcPhys dirPhys rest σ1 := rfl
      rcases halloc : pmm_alloc_block σ.pmm with ⟨p1, topt⟩
      rcases topt with _ | ⟨t⟩
      · -- allocation failed: the loop returns false, contradiction
        exfalso
        rw [hrun1] at hrun
        unfold clonePdeStep at hrun
        rw [if_neg hpres, halloc] at hrun
        exact Bool.noConfusion (Prod.ext_iff.mp hrun).2
      · obtain ⟨f, hff, hteq, hbf, hflt, hp1⟩ := pmm_alloc_block_some halloc
        obtain ⟨hTbits, hTs, hTd⟩ := htb i (List.mem_cons_self i rest)
          (by exact hpres)
        have hts : srcPhys ≠ t := hteq ▸ addr_ne_of_bits hsb hbf
        have htd2 : dirPhys ≠ t := hteq ▸ addr_ne_of_bits hdb hbf
        have hTt : σ.mem srcPhys i &&& 0xFFFFF000 ≠ t :=
          hteq ▸ addr_ne_of_bits hTbits hbf
        have hflagslt : σ.mem srcPhys i &&& 0x0FFF < 4096 := by
          have := Nat.and_le_right (n := σ.mem srcPhys i) (m := 0x0FFF)
          omega
        have hf20 : f < 2 ^ 20 := lt_of_lt_of_le hflt hn20
        -- abbreviations: source table T, intermediate state σ2, post-step σ4
        set T := σ.mem srcPhys i &&& 0xFFFFF000 with hTdef
        set FL := σ.mem srcPhys i &&& 0x0FFF with hFLdef
        set σ2 : VmmState :=
          VmmState.mk (writeWord (zeroFrame σ.mem t) dirPhys i (t ||| FL)) p1
          with hσ2def
        set σ4 := clonePteLoop T t (List.range 1024) σ2 with hσ4def
        have hrun2 : clonePdeLoop srcPhys dirPhys rest σ4 = (σ3, true) := by
          have heq : clonePdeLoop srcPhys dirPhys (i :: rest) σ =
              clonePdeLoop srcPhys dirPhys rest σ4 := by
            rw [hrun1, clonePdeStep_present srcPhys dirPhys i σ p1 t hpres halloc
              hts hsd]
          rw [← heq]
          exact hrun
        -- facts about σ2
        have hσ2mem : ∀ a b, a ≠ dirPhys ∨ b ≠ i → a ≠ t →
            σ2.mem a b = σ.mem a b := by
          intro a b hab hat
          show writeWord (zeroFrame σ.mem t) dirPhys i (t ||| FL) a b = σ.mem a b
          unfold writeWord zeroFrame
          rcases hab with h | h
          · rw [if_neg (fun hc => h hc.1), if_neg hat]
          · rw [if_neg (fun hc => h hc.2), if_neg hat]
        have hσ2dir : σ2.mem dirPhys i = t ||| FL := by
          show writeWord (zeroFrame σ.mem t) dirPhys i (t ||| FL) dirPhys i = _
          unfold writeWord
          rw [if_pos ⟨rfl, rfl⟩]
        have hσ2pmm : σ2.pmm = p1 := rfl
        -- facts about σ4 relative to σ
        obtain ⟨hl_bits, hl_nf, hl_refs⟩ :=
          clonePteLoop_pmm T t (List.range 1024) σ2 (List.nodup_range 1024)
        have P1 : ∀ b, σ4.mem srcPhys b = σ.mem srcPhys b := by
          intro b
          rw [hσ4def, clonePteLoop_mem_other T t (List.range 1024) σ2 srcPhys b
            (Ne.symm hTs) hts]
          exact hσ2mem srcPhys b (Or.inl hsd) hts
        have P2 : ∀ X b, σ.pmm.bits (X / 4096) = true → X ≠ dirPhys → X ≠ T →
            σ4.mem X b = σ.mem X b := by
          intro X b hX hXd hXT
          have hXt : X ≠ t := hteq ▸ addr_ne_of_bits hX hbf
          rw [hσ4def, clonePteLoop_mem_other T t (List.range 1024) σ2 X b hXT hXt]
          exact hσ2mem X b (Or.inl hXd) hXt
        have P3a : ∀ b, b ≠ i → σ4.mem dirPhys b = σ.mem dirPhys b := by
          intro b hb
          rw [hσ4def, clonePteLoop_mem_other T t (List.range 1024) σ2 dirPhys b
            (Ne.symm hTd) htd2]
          exact hσ2mem dirPhys b (Or.inr hb) htd2
        have P3b : σ4.mem dirPhys i = t ||| FL := by
          rw [hσ4def, clonePteLoop_mem_other T t (List.range 1024) σ2 dirPhys i
            (Ne.symm hTd) htd2]
          exact hσ2dir
        have P5 : ∀ g, σ.pmm.bits g = true → σ4.pmm.bits g = true := by
          intro g hg
          rw [hσ4def, hl_bits, hσ2pmm, hp1]
          by_cases hgf : g = f
          · simp [hgf]
          · simpa [hgf] using hg
        have P5b : σ4.pmm.bits f = true := by
          rw [hσ4def, hl_bits, hσ2pmm, hp1]
          simp
        have P7 : σ4.pmm.nframes = σ.pmm.nframes := by
          rw [hσ4def, hl_nf, hσ2pmm, hp1]
        have hrowT : ∀ j, σ2.mem T j = σ.mem T j := fun j =>
          hσ2mem T j (Or.inl hTd) hTt
        have P4 : ∀ g, σ.pmm.bits g = true →
            σ4.pmm.refs g = σ.pmm.refs g +
              frameIncCount σ.mem T (List.range 1024) g := by
          intro g hg
          have hgf : g ≠ f := by
            intro hc
            rw [hc] at hg
            rw [hg] at hbf
            exact Bool.noConfusion hbf
          have hrefs1 : σ2.pmm.refs g = σ.pmm.refs g := by
            rw [hσ2pmm, hp1]
            simp [hgf]
          have hcongr : frameIncCount σ2.mem T (List.range 1024) g =
              frameIncCount σ.mem T (List.range 1024) g :=
            frameIncCount_congr (fun j _ => hrowT j)
          rw [hσ4def, hl_refs g, hrefs1, hcongr]
        have P6 : ∀ j, j < 1024 → σ.mem T j &&& I86_PTE_PRESENT ≠ 0 →
            σ.mem T j < 2 ^ 32 →
            σ4.mem T j = cowTransform (σ.mem T j) ∧
            σ4.mem t j = cowTransform (σ.mem T j) := by
          intro j hj hjp hj32
          have hmem : j ∈ List.range 1024 := List.mem_range.mpr hj
          have hp2 : σ2.mem T j &&& I86_PTE_PRESENT ≠ 0 := by
            rw [hrowT j]; exact hjp
          have h322 : σ2.mem T j < 2 ^ 32 := by
            rw [hrowT j]; exact hj32
          have := clonePteLoop_values T t hTt (List.range 1024) σ2
            (List.nodup_range 1024) j hmem hp2 h322
          rw [hrowT j] at this
          exact this
        -- the induction hypothesis applied to the remaining PDEs
        have hpresrest : ∀ i' ∈ rest, σ4.mem srcPhys i' = σ.mem srcPhys i' :=
          fun i' _ => P1 i'
        have htbl_ne : ∀ i' ∈ rest, σ.mem srcPhys i' &&& I86_PTE_PRESENT ≠ 0 →
            σ.mem srcPhys i' &&& 0xFFFFF000 ≠ T := by
          intro i' hi' hp'
          exact htd i' (List.mem_cons_of_mem i hi') i (List.mem_cons_self i rest)
            (fun hc => hin (hc ▸ hi')) hp' hpres
        have hrowtbl : ∀ i' ∈ rest, σ.mem srcPhys i' &&& I86_PTE_PRESENT ≠ 0 →
            ∀ j, σ4.mem (σ.mem srcPhys i' &&& 0xFFFFF000) j =
              σ.mem (σ.mem srcPhys i' &&& 0xFFFFF000) j := by
          intro i' hi' hp' j
          obtain ⟨hb', hs', hd'⟩ := htb i' (List.mem_cons_of_mem i hi') hp'
          exact P2 _ j hb' hd' (htbl_ne i' hi' hp')
        obtain ⟨A', B', C', D', G', E'⟩ := ih σ4 σ3 hrun2 hnd'
          (by rw [P7]; exact hn20)
          (P5 _ hsb) (P5 _ hdb) hsd
          (by
            intro i' hi' hp'
            rw [hpresrest i' hi'] at hp' ⊢
            obtain ⟨hb', hs', hd'⟩ := htb i' (List.mem_cons_of_mem i hi') hp'
            exact ⟨P5 _ hb', hs', hd'⟩)
          (by
            intro i' hi' i2 hi2 hne hp' hp2'
            rw [hpresrest i' hi'] at hp' ⊢
            rw [hpresrest i2 hi2] at hp2' ⊢
            exact htd i' (List.mem_cons_of_mem i hi') i2 (List.mem_cons_of_mem i hi2)
              hne hp' hp2')
          (by
            intro i' hi' hp' j hj hjp
            rw [hpresrest i' hi'] at hp' hjp ⊢
            rw [hrowtbl i' hi' hp' j] at hjp ⊢
            obtain ⟨hfbv, h32v⟩ := hfb i' (List.mem_cons_of_mem i hi') hp' j hj hjp
            exact ⟨P5 _ hfbv, h32v⟩)
        -- assemble the conclusions for i :: rest
        have hXt_of_bits : ∀ X, σ.pmm.bits (X / 4096) = true → X ≠ t :=
          fun X hX => hteq ▸ addr_ne_of_bits hX hbf
        refine ⟨?_, ?_, ?_, ?_, ?_, ?_⟩
        · -- (A) row preservation
          intro X hX hXd hXt b
          have hXT : X ≠ T := hXt i (List.mem_cons_self i rest) hpres
          have hstep : σ4.mem X b = σ.mem X b := P2 X b hX hXd hXT
          have hrest : σ3.mem X b = σ4.mem X b := by
            apply A' X (P5 _ hX) hXd
            intro i' hi' hp'
            rw [hpresrest i' hi'] at hp' ⊢
            exact hXt i' (List.mem_cons_of_mem i hi') hp'
          rw [hrest, hstep]
        · -- (B) refcount accounting
          intro g hg
          have hB := B' g (P5 _ hg)
          have hdic : dirIncCount σ4.mem srcPhys rest g =
              dirIncCount σ.mem srcPhys rest g := by
            apply dirIncCount_congr hpresrest
            intro i' hi' hp' j _
            exact hrowtbl i' hi' hp' j
          rw [hB, hdic, P4 g hg, dirIncCount_cons, if_pos hpres]
          rw [hTdef]
          omega
        · -- (C) bitmap monotonicity
          intro g hg
          exact C' g (P5 g hg)
        · -- (D) nframes preserved
          rw [D', P7]
        · -- (G) directory columns outside the list untouched
          intro b hb
          have hb1 : b ∉ rest := fun hc => hb (List.mem_cons_of_mem i hc)
          have hb2 : b ≠ i := fun hc => hb (hc ▸ List.mem_cons_self i rest)
          rw [G' b hb1, P3a b hb2]
        · -- (E) per-table entry transformation
          intro i' hi' hp'
          rcases List.mem_cons.mp hi' with hii | hir
          · -- the PDE processed in this step
            subst hii
            have hdir3 : σ3.mem dirPhys i' = t ||| FL := by
              rw [G' i' hin, P3b]
            have hframe3 : σ3.mem dirPhys i' &&& 0xFFFFF000 = t := by
              rw [hdir3, hteq]
              exact or_flags_frame f FL hf20 hflagslt
            constructor
            · rw [hdir3, hteq]
              exact or_flags_low f FL hflagslt
            · intro j hj hjp
              obtain ⟨hfbv, h32v⟩ := hfb i' (List.mem_cons_self i' rest) hp' j hj hjp
              have hva := P6 j hj hjp h32v
              constructor
              · have hrest : σ3.mem T j = σ4.mem T j := by
                  apply A' T (P5 _ hTbits) hTd
                  intro i2 hi2 hp2
                  rw [hpresrest i2 hi2] at hp2 ⊢
                  exact Ne.symm (htbl_ne i2 hi2 hp2)
                rw [hrest]
                exact hva.1
              · rw [hframe3]
                have hrest : σ3.mem t j = σ4.mem t j := by
                  apply A' t ?_ (Ne.symm htd2)
                  · intro i2 hi2 hp2
                    rw [hpresrest i2 hi2] at hp2 ⊢
                    obtain ⟨hb2, _, _⟩ := htb i2 (List.mem_cons_of_mem i' hi2) hp2
                    exact Ne.symm (hXt_of_bits _ hb2)
                  · rw [hteq, Nat.mul_div_cancel f (by norm_num)]
                    exact P5b
                rw [hrest]
                exact hva.2
          · -- a PDE processed by the remaining loop
            have hp4 : σ4.mem srcPhys i' &&& I86_PTE_PRESENT ≠ 0 := by
              rw [hpresrest i' hir]; exact hp'
            obtain ⟨hE1, hE2⟩ := E' i' hir hp4
            constructor
            · rw [hpresrest i' hir] at hE1
              exact hE1
            · intro j hj hjp
              have hrowj := hrowtbl i' hir hp' j
              have hjp4 : σ4.mem (σ4.mem srcPhys i' &&& 0xFFFFF000) j &&&
                  I86_PTE_PRESENT ≠ 0 := by
                rw [hpresrest i' hir, hrowj]
                exact hjp
              obtain ⟨hE2a, hE2b⟩ := hE2 j hj hjp4
              rw [hpresrest i' hir, hrowj] at hE2a hE2b
              exact ⟨hE2a, hE2b⟩

theorem copyKernelEntries_spec (srcPhys dirPhys : Nat) (is : List Nat) :
    ∀ σ : VmmState,
      (copyKernelEntries srcPhys dirPhys is σ).pmm = σ.pmm ∧
      ∀ a b, a ≠ dirPhys ∨ b ∉ is →
        (copyKernelEntries srcPhys dirPhys is σ).mem a b = σ.mem a b := by
  induction is with
  | nil => intro σ; exact ⟨rfl, fun a b _ => rfl⟩
  | cons k rest ih =>
    intro σ
    constructor
    · exact (ih { σ with mem := writeWord σ.mem dirPhys k (σ.mem srcPhys k) }).1
    · intro a b hab
      show (copyKernelEntries srcPhys dirPhys rest
          { σ with mem := writeWord σ.mem dirPhys k (σ.mem srcPhys k) }).mem a b =
        σ.mem a b
      rcases hab with h | h
      · rw [(ih { σ with mem := writeWord σ.mem dirPhys k (σ.mem srcPhys k) }).2
          a b (Or.inl h)]
        show writeWord σ.mem dirPhys k (σ.mem srcPhys k) a b = σ.mem a b
        unfold writeWord
        rw [if_neg (fun hc => h hc.1)]
      · have hbk : b ≠ k := fun hc => h (hc ▸ List.mem_cons_self k rest)
        have hbr : b ∉ rest := fun hc => h (List.mem_cons_of_mem k hc)
        rw [(ih { σ with mem := writeWord σ.mem dirPhys k (σ.mem srcPhys k) }).2
          a b (Or.inr hbr)]
        show writeWord σ.mem dirPhys k (σ.mem srcPhys k) a b = σ.mem a b
        unfold writeWord
        rw [if_neg (fun hc => hbk hc.2)]

theorem frame_mask_aligned (x : Nat) : (x &&& 0xFFFFF000) % 4096 = 0 := by
  have h : (x &&& 0xFFFFF000) % 2 ^ 12 = 0 := by
    apply Nat.eq_of_testBit_eq
    intro n
    rw [Nat.testBit_mod_two_pow]
    simp only [Nat.testBit_land, tb_frame, Nat.zero_testBit]
    by_cases h12 : n < 12
    · have : ¬ 12 ≤ n := by omega
      simp [this]
    · simp [h12]
  simpa using h

theorem and_fff_two (x : Nat) : x &&& 0xFFF &&& 2 = x &&& 2 := by
  apply Nat.eq_of_testBit_eq
  intro n
  simp only [Nat.testBit_land, tb_fff, tb_two]
  by_cases h1 : n = 1
  · subst h1; simp
  · simp [h1]

theorem aligned_div_inj {a b : Nat} (ha : a % 4096 = 0) (hb : b % 4096 = 0)
    (h : a / 4096 = b / 4096) : a = b := by
  omega

theorem countP_eq_one_of_unique {α} (p : α → Bool) (l : List α) (a : α)
    (hnd : l.Nodup) (ha : a ∈ l) (hpa : p a = true)
    (hq : ∀ b ∈ l, b ≠ a → p b = false) : l.countP p = 1 := by
  induction l with
  | nil => cases ha
  | cons x xs ih =>
    obtain ⟨hxn, hnd'⟩ := List.nodup_cons.mp hnd
    rw [List.countP_cons]
    rcases List.mem_cons.mp ha with rfl | hax
    · have hz : xs.countP p = 0 := by
        rw [List.countP_eq_zero]
        intro b hb
        have hbx : b ≠ a := fun hc => hxn (hc ▸ hb)
        simp [hq b (List.mem_cons_of_mem a hb) hbx]
      rw [hz, hpa]
      simp
    · have hpx : p x = false := by
        have hxa : x ≠ a := fun hc => hxn (hc ▸ hax)
        exact hq x (List.mem_cons_self x xs) hxa
      rw [ih hnd' hax (fun b hb hba => hq b (List.mem_cons_of_mem x hb) hba), hpx]
      simp

theorem sum_map_eq_single (l : List Nat) (F : Nat → Nat) (i : Nat)
    (hnd : l.Nodup) (hi : i ∈ l) (hFi : F i = 1)
    (hz : ∀ x ∈ l, x ≠ i → F x = 0) : (l.map F).sum = 1 := by
  induction l with
  | nil => cases hi
  | cons x xs ih =>
    obtain ⟨hxn, hnd'⟩ := List.nodup_cons.mp hnd
    rw [List.map_cons, List.sum_cons]
    rcases List.mem_cons.mp hi with rfl | hix
    · have hzz : (xs.map F).sum = 0 := by
        rw [List.sum_eq_zero_iff]
        intro y hy
        rw [List.mem_map] at hy
        obtain ⟨x', hx', rfl⟩ := hy
        exact hz x' (List.mem_cons_of_mem i hx') (fun hc => hxn (hc ▸ hx'))
      rw [hzz, hFi]
    · have hFx : F x = 0 :=
        hz x (List.mem_cons_self x xs) (fun hc => hxn (hc ▸ hix))
      rw [hFx, ih hnd' hix (fun y hy hyi => hz y (List.mem_cons_of_mem x hy) hyi)]

theorem cowTransform_writable (x : Nat) (hw : x &&& I86_PTE_WRITABLE ≠ 0) :
    cowTransform x &&& I86_PTE_WRITABLE = 0 ∧
    cowTransform x &&& I86_PTE_COW ≠ 0 ∧
    cowTransform x &&& I86_PTE_FRAME = x &&& I86_PTE_FRAME ∧
    cowTransform x &&& 0xDFD = x &&& 0xDFD := by
  have hw' : x &&& 0x0FFF &&& I86_PTE_WRITABLE ≠ 0 := by
    unfold I86_PTE_WRITABLE at *
    rw [and_fff_two]
    exact hw
  unfold cowTransform
  dsimp only
  rw [if_pos hw']
  unfold I86_PTE_WRITABLE I86_PTE_COW I86_PTE_FRAME NOT_WRITABLE
  refine ⟨?_, ?_, ?_, ?_⟩
  · apply Nat.eq_of_testBit_eq
    intro n
    simp only [Nat.testBit_land, Nat.testBit_lor, tb_two, tb_cow, tb_fff, tb_frame,
      tb_not_writable, Nat.zero_testBit]
    by_cases h1 : n = 1
    · subst h1; simp
    · simp [h1]
  · rw [show (0x200 : Nat) = 2 ^ 9 by norm_num, and_flag_ne_iff]
    simp [Nat.testBit_land, Nat.testBit_lor, tb_cow, tb_fff, tb_frame, tb_not_writable]
  · apply Nat.eq_of_testBit_eq
    intro n
    simp only [Nat.testBit_land, Nat.testBit_lor, tb_two, tb_cow, tb_fff, tb_frame,
      tb_not_writable]
    by_cases h12 : n < 12
    · have h12n : ¬ 12 ≤ n := by omega
      simp [h12n]
    · by_cases h32 : n < 32
      · have h12' : 12 ≤ n := by omega
        have h9 : ¬ n = 9 := by omega
        simp [h12, h12', h32, h9]
      · simp [h32]
  · apply Nat.eq_of_testBit_eq
    intro n
    simp only [Nat.testBit_land, Nat.testBit_lor, tb_two, tb_cow, tb_fff, tb_frame,
      tb_not_writable, tb_dfd]
    by_cases h1 : n = 1
    · subst h1; simp
    · by_cases h9 : n = 9
      · subst h9; simp
      · by_cases h12 : n < 12
        · have h32 : n < 32 := by omega
          have h12n : ¬ 12 ≤ n := by omega
          simp [h1, h9, h12, h32, h12n]
        · simp [h1, h9, h12]

theorem cowTransform_readonly (x : Nat) (hw : x &&& I86_PTE_WRITABLE = 0) :
    cowTransform x &&& I86_PTE_COW = x &&& I86_PTE_COW ∧
    cowTransform x &&& I86_PTE_FRAME = x &&& I86_PTE_FRAME ∧
    cowTransform x &&& 0x0FFF = x &&& 0x0FFF := by
  have hw' : ¬ x &&& 0x0FFF &&& I86_PTE_WRITABLE ≠ 0 := by
    unfold I86_PTE_WRITABLE at *
    rw [and_fff_two]
    simp [hw]
  unfold cowTransform
  dsimp only
  rw [if_neg hw']
  unfold I86_PTE_COW I86_PTE_FRAME
  refine ⟨?_, ?_, ?_⟩
  · apply Nat.eq_of_testBit_eq
    intro n
    simp only [Nat.testBit_land, Nat.testBit_lor, tb_cow, tb_fff, tb_frame]
    by_cases h9 : n = 9
    · subst h9; simp
    · simp [h9]
  · apply Nat.eq_of_testBit_eq
    intro n
    simp only [Nat.testBit_land, Nat.testBit_lor, tb_fff, tb_frame]
    by_cases h12 : n < 12
    · have h12n : ¬ 12 ≤ n := by omega
      simp [h12n]
    · by_cases h32 : n < 32
      · have h12' : 12 ≤ n := by omega
        simp [h12, h12', h32]
      · simp [h32]
  · apply Nat.eq_of_testBit_eq
    intro n
    simp only [Nat.testBit_land, Nat.testBit_lor, tb_fff, tb_frame]
    by_cases h12 : n < 12
    · have h12n : ¬ 12 ≤ n := by omega
      simp [h12, h12n]
    · simp [h12]

/-- C1 (amended): when vmm_clone_directory returns a new directory, every
user-space PTE present in the source is transformed by cowTransform: a
writable PTE loses Writable and gains COW in BOTH the source table and
the destination table (frame and remaining flags kept), while a read-only
PTE keeps its flags unchanged (COW is NOT newly set); the destination
directory entry carries the source PDE's low flag bits and its table
holds the same transformed entry; and every present user PTE triggers
exactly one pmm_inc_ref of its frame, so when no two present user PTEs
share a frame each such frame's refcount grows by exactly 1. -/
theorem vmm_clone_directory_cow
    (σ σ3 : VmmState) (srcPhys dphys : Nat)
    (hn20 : σ.pmm.nframes ≤ 2 ^ 20)
    (hsb : σ.pmm.bits (srcPhys / 4096) = true)
    (htb : ∀ i, i < 768 → σ.mem srcPhys i &&& I86_PTE_PRESENT ≠ 0 →
      σ.pmm.bits ((σ.mem srcPhys i &&& 0xFFFFF000) / 4096) = true ∧
      σ.mem srcPhys i &&& 0xFFFFF000 ≠ srcPhys)
    (htd : ∀ i, i < 768 → ∀ i2, i2 < 768 → i ≠ i2 →
      σ.mem srcPhys i &&& I86_PTE_PRESENT ≠ 0 →
      σ.mem srcPhys i2 &&& I86_PTE_PRESENT ≠ 0 →
      σ.mem srcPhys i &&& 0xFFFFF000 ≠ σ.mem srcPhys i2 &&& 0xFFFFF000)
    (hfb : ∀ i, i < 768 → σ.mem srcPhys i &&& I86_PTE_PRESENT ≠ 0 →
      ∀ j, j < 1024 →
      σ.mem (σ.mem srcPhys i &&& 0xFFFFF000) j &&& I86_PTE_PRESENT ≠ 0 →
      σ.pmm.bits
        ((σ.mem (σ.mem srcPhys i &&& 0xFFFFF000) j &&& I86_PTE_FRAME) / 4096) = true ∧
      σ.mem (σ.mem srcPhys i &&& 0xFFFFF000) j < 2 ^ 32)
    (hinj : ∀ i1, i1 < 768 → σ.mem srcPhys i1 &&& I86_PTE_PRESENT ≠ 0 →
      ∀ j1, j1 < 1024 →
      σ.mem (σ.mem srcPhys i1 &&& 0xFFFFF000) j1 &&& I86_PTE_PRESENT ≠ 0 →
      ∀ i2, i2 < 768 → σ.mem srcPhys i2 &&& I86_PTE_PRESENT ≠ 0 →
      ∀ j2, j2 < 1024 →
      σ.mem (σ.mem srcPhys i2 &&& 0xFFFFF000) j2 &&& I86_PTE_PRESENT ≠ 0 →
      ¬(i1 = i2 ∧ j1 = j2) →
      σ.mem (σ.mem srcPhys i1 &&& 0xFFFFF000) j1 &&& I86_PTE_FRAME ≠
        σ.mem (σ.mem srcPhys i2 &&& 0xFFFFF000) j2 &&& I86_PTE_FRAME)
    (hrun : vmm_clone_directory σ srcPhys = (σ3, some dphys)) :
    (∀ x, x &&& I86_PTE_WRITABLE ≠ 0 →
      cowTransform x &&& I86_PTE_WRITABLE = 0 ∧
      cowTransform x &&& I86_PTE_COW ≠ 0 ∧
      cowTransform x &&& I86_PTE_FRAME = x &&& I86_PTE_FRAME) ∧
    (∀ x, x &&& I86_PTE_WRITABLE = 0 →
      cowTransform x &&& I86_PTE_COW = x &&& I86_PTE_COW ∧
      cowTransform x &&& I86_PTE_FRAME = x &&& I86_PTE_FRAME ∧
      cowTransform x &&& 0x0FFF = x &&& 0x0FFF) ∧
    (∀ i, i < 768 → σ.mem srcPhys i &&& I86_PTE_PRESENT ≠ 0 →
      σ3.mem dphys i &&& 0x0FFF = σ.mem srcPhys i &&& 0x0FFF ∧
      ∀ j, j < 1024 →
        σ.mem (σ.mem srcPhys i &&& 0xFFFFF000) j &&& I86_PTE_PRESENT ≠ 0 →
        σ3.mem (σ.mem srcPhys i &&& 0xFFFFF000) j =
          cowTransform (σ.mem (σ.mem srcPhys i &&& 0xFFFFF000) j) ∧
        σ3.mem (σ3.mem dphys i &&& 0xFFFFF000) j =
          cowTransform (σ.mem (σ.mem srcPhys i &&& 0xFFFFF000) j) ∧
        σ3.pmm.refs
            ((σ.mem (σ.mem srcPhys i &&& 0xFFFFF000) j &&& I86_PTE_FRAME) / 4096) =
          σ.pmm.refs
            ((σ.mem (σ.mem srcPhys i &&& 0xFFFFF000) j &&& I86_PTE_FRAME) / 4096) + 1) := by
  refine ⟨fun x hx =>
      ⟨(cowTransform_writable x hx).1, (cowTransform_writable x hx).2.1,
       (cowTransform_writable x hx).2.2.1⟩,
    fun x hx => cowTransform_readonly x hx, ?_⟩
  -- peel the clone wrapper down to the outer loop
  unfold vmm_clone_directory at hrun
  rcases halloc : pmm_alloc_block σ.pmm with ⟨p1, dopt⟩
  rw [halloc] at hrun
  cases dopt with
  | none => simp at hrun
  | some d =>
    dsimp only at hrun
    obtain ⟨f0, hff0, hdeq, hbf0, hflt0, hp1⟩ := pmm_alloc_block_some halloc
    have hsd : srcPhys ≠ d := hdeq ▸ addr_ne_of_bits hsb hbf0
    split at hrun
    · exact absurd (Prod.ext_iff.mp hrun).2 (by simp)
    · rename_i σr heq
      have hdd' : d = dphys := by
        have h2 := congrArg Prod.snd hrun
        simpa using h2
      subst hdd'
      have hx3 : σr = σ3 := by
        have h1 := congrArg Prod.fst hrun
        simpa using h1
      rw [hx3] at heq
      -- the state handed to the outer loop
      set σZ : VmmState := VmmState.mk (zeroFrame σ.mem d) p1 with hσZ
      set σK := copyKernelEntries srcPhys d (List.range' 768 256) σZ with hσK
      obtain ⟨hKpmm, hKmem⟩ := copyKernelEntries_spec srcPhys d (List.range' 768 256) σZ
      have hKrow : ∀ a b, a ≠ d → σK.mem a b = σ.mem a b := by
        intro a b ha
        rw [hσK, hKmem a b (Or.inl ha)]
        show zeroFrame σ.mem d a b = σ.mem a b
        unfold zeroFrame
        rw [if_neg ha]
      have hKp : σK.pmm = p1 := by rw [hσK, hKpmm]
      have hmono : ∀ g, σ.pmm.bits g = true → p1.bits g = true := by
        intro g hg
        rw [hp1]
        by_cases hgf : g = f0
        · simp [hgf]
        · simpa [hgf] using hg
      have hrefs0 : ∀ g, σ.pmm.bits g = true → p1.refs g = σ.pmm.refs g := by
        intro g hg
        have hgf : g ≠ f0 := by
          intro hc
          rw [hc] at hg
          rw [hg] at hbf0
          exact Bool.noConfusion hbf0
        rw [hp1]
        simp [hgf]
      have htbl_ne_d : ∀ i, i < 768 → σ.mem srcPhys i &&& I86_PTE_PRESENT ≠ 0 →
          σ.mem srcPhys i &&& 0xFFFFF000 ≠ d := by
        intro i hi hp
        exact hdeq ▸ addr_ne_of_bits (htb i hi hp).1 hbf0
      -- apply the outer-loop characterization
      obtain ⟨A, B, C, D, G, E⟩ := clonePdeLoop_spec srcPhys d (List.range 768)
        σK σ3 heq (List.nodup_range 768)
        (by rw [hKp, hp1]; exact hn20)
        (by rw [hKp]; exact hmono _ hsb)
        (by rw [hKp, hp1, hdeq, Nat.mul_div_cancel f0 (by norm_num)]; simp)
        hsd
        (by
          intro i hi hp
          rw [List.mem_range] at hi
          rw [hKrow srcPhys i hsd] at hp ⊢
          rw [hKp]
          exact ⟨hmono _ (htb i hi hp).1, (htb i hi hp).2, htbl_ne_d i hi hp⟩)
        (by
          intro i hi i2 hi2 hne hp hp2
          rw [List.mem_range] at hi hi2
          rw [hKrow srcPhys i hsd] at hp ⊢
          rw [hKrow srcPhys i2 hsd] at hp2 ⊢
          exact htd i hi i2 hi2 hne hp hp2)
        (by
          intro i hi hp j hj hjp
          rw [List.mem_range] at hi
          rw [hKrow srcPhys i hsd] at hp hjp ⊢
          rw [hKrow _ j (htbl_ne_d i hi hp)] at hjp ⊢
          rw [hKp]
          exact ⟨hmono _ (hfb i hi hp j hj hjp).1, (hfb i hi hp j hj hjp).2⟩)
      -- transport the loop conclusions back to σ
      have hrefs3 : ∀ g, σ.pmm.bits g = true →
          σ3.pmm.refs g = σ.pmm.refs g +
            dirIncCount σ.mem srcPhys (List.range 768) g := by
        intro g hg
        have hB := B g (by rw [hKp]; exact hmono _ hg)
        have hdic : dirIncCount σK.mem srcPhys (List.range 768) g =
            dirIncCount σ.mem srcPhys (List.range 768) g := by
          apply dirIncCount_congr
          · intro i _
            exact hKrow srcPhys i hsd
          · intro i hi hp j _
            rw [List.mem_range] at hi
            exact hKrow _ j (htbl_ne_d i hi hp)
        rw [hB, hdic, hKp, hrefs0 g hg]
      intro i hi hp
      have hiK : σK.mem srcPhys i = σ.mem srcPhys i := hKrow srcPhys i hsd
      have hpK : σK.mem srcPhys i &&& I86_PTE_PRESENT ≠ 0 := by
        rw [hiK]; exact hp
      obtain ⟨hE1, hE2⟩ := E i (List.mem_range.mpr hi) hpK
      rw [hiK] at hE1
      constructor
      · exact hE1
      · intro j hj hjp
        have hTK : ∀ b, σK.mem (σ.mem srcPhys i &&& 0xFFFFF000) b =
            σ.mem (σ.mem srcPhys i &&& 0xFFFFF000) b :=
          fun b => hKrow _ b (htbl_ne_d i hi hp)
        have hjpK : σK.mem (σK.mem srcPhys i &&& 0xFFFFF000) j &&&
            I86_PTE_PRESENT ≠ 0 := by
          rw [hiK, hTK j]; exact hjp
        obtain ⟨hE2a, hE2b⟩ := hE2 j hj (by rw [hiK] at hjpK ⊢; exact hjpK)
        rw [hiK, hTK j] at hE2a hE2b
        refine ⟨hE2a, hE2b, ?_⟩
        -- exactly one pmm_inc_ref on this PTE's frame
        have hgbits := (hfb i hi hp j hj hjp).1
        have hcount : dirIncCount σ.mem srcPhys (List.range 768)
            ((σ.mem (σ.mem srcPhys i &&& 0xFFFFF000) j &&& I86_PTE_FRAME) / 4096) = 1 := by
          unfold dirIncCount
          apply sum_map_eq_single (List.range 768) _ i (List.nodup_range 768)
            (List.mem_range.mpr hi)
          · rw [if_pos hp]
            apply countP_eq_one_of_unique _ (List.range 1024) j
              (List.nodup_range 1024) (List.mem_range.mpr hj)
            · simp [hjp]
            · intro j' hj' hjne
              rw [List.mem_range] at hj'
              by_cases hpj' : σ.mem (σ.mem srcPhys i &&& 0xFFFFF000) j' &&&
                  I86_PTE_PRESENT ≠ 0
              · have hfr := hinj i hi hp j' hj' hpj' i hi hp j hj hjp
                  (fun hc => hjne hc.2)
                have hdiv : (σ.mem (σ.mem srcPhys i &&& 0xFFFFF000) j' &&&
                    I86_PTE_FRAME) / 4096 ≠
                    (σ.mem (σ.mem srcPhys i &&& 0xFFFFF000) j &&&
                    I86_PTE_FRAME) / 4096 := by
                  intro hc
                  exact hfr (aligned_div_inj
                    (by unfold I86_PTE_FRAME; exact frame_mask_aligned _)
                    (by unfold I86_PTE_FRAME; exact frame_mask_aligned _) hc)
                simp [hpj', hdiv]
              · simp [hpj']
          · intro i' hi' hine
            rw [List.mem_range] at hi'
            by_cases hpi' : σ.mem srcPhys i' &&& I86_PTE_PRESENT ≠ 0
            · rw [if_pos hpi']
              unfold frameIncCount
              rw [List.countP_eq_zero]
              intro j' hj'
              rw [List.mem_range] at hj'
              by_cases hpj' : σ.mem (σ.mem srcPhys i' &&& 0xFFFFF000) j' &&&
                  I86_PTE_PRESENT ≠ 0
              · have hfr := hinj i' hi' hpi' j' hj' hpj' i hi hp j hj hjp
                  (fun hc => hine hc.1)
                have hdiv : (σ.mem (σ.mem srcPhys i' &&& 0xFFFFF000) j' &&&
                    I86_PTE_FRAME) / 4096 ≠
                    (σ.mem (σ.mem srcPhys i &&& 0xFFFFF000) j &&&
                    I86_PTE_FRAME) / 4096 := by
                  intro hc
                  exact hfr (aligned_div_inj
                    (by unfold I86_PTE_FRAME; exact frame_mask_aligned _)
                    (by unfold I86_PTE_FRAME; exact frame_mask_aligned _) hc)
                simp [hpj', hdiv]
              · simp [hpj']
            · rw [if_neg hpi']
        rw [hrefs3 _ hgbits, hcount]


theorem mk_mem_eval (m : Nat → Nat → Nat) (p : Pmm) (a b : Nat) :
    (VmmState.mk m p).mem a b = m a b := rfl

theorem writeWord_ne (m : Nat → Nat → Nat) (t idx v a b : Nat)
    (h : ¬(a = t ∧ b = idx)) : writeWord m t idx v a b = m a b := by
  unfold writeWord
  rw [if_neg h]

theorem zeroFrame_ne (m : Nat → Nat → Nat) (t a b : Nat) (h : a ≠ t) :
    zeroFrame m t a b = m a b := by
  unfold zeroFrame
  rw [if_neg h]

theorem clonePdeLoop_absent (srcPhys dirPhys : Nat) :
    ∀ (is : List Nat) (σ : VmmState),
      (∀ i ∈ is, σ.mem srcPhys i &&& I86_PTE_PRESENT = 0) →
      clonePdeLoop srcPhys dirPhys is σ = (σ, true) := by
  intro is
  induction is with
  | nil => intro σ _; rfl
  | cons i rest ih =>
    intro σ h
    unfold clonePdeLoop clonePdeStep
    rw [if_pos (h i (List.mem_cons_self i rest))]
    exact ih σ (fun i' hi' => h i' (List.mem_cons_of_mem i hi'))

/-- Closed-form run of vmm_clone_directory on a state whose only present
user PDE is index 0: the two frame allocations succeed (directory d, page
table t), the kernel entries are copied, the single page table is cloned
by the inner loop, and every other PDE is skipped. -/
theorem clone_run_single (σ0 : VmmState) (srcPhys d t T pte0 : Nat) (P1 P2 : Pmm)
    (halloc1 : pmm_alloc_block σ0.pmm = (P1, some d))
    (halloc2 : pmm_alloc_block P1 = (P2, some t))
    (hsd : srcPhys ≠ d)
    (hst : srcPhys ≠ t)
    (hpde : σ0.mem srcPhys 0 = pte0)
    (hT : pte0 &&& 0xFFFFF000 = T)
    (hpres : pte0 &&& I86_PTE_PRESENT ≠ 0)
    (hTs : T ≠ srcPhys)
    (habs : ∀ i, 1 ≤ i → i < 768 → σ0.mem srcPhys i = 0) :
    vmm_clone_directory σ0 srcPhys =
      (clonePteLoop T t (List.range 1024)
        (VmmState.mk
          (writeWord
            (zeroFrame
              (copyKernelEntries srcPhys d (List.range' 768 256)
                (VmmState.mk (zeroFrame σ0.mem d) P1)).mem t)
            d 0 (t ||| (pte0 &&& 0x0FFF)))
          P2),
       some d) := by
  set σZ : VmmState := VmmState.mk (zeroFrame σ0.mem d) P1 with hσZ
  set σK := copyKernelEntries srcPhys d (List.range' 768 256) σZ with hσK
  obtain ⟨hKpmm, hKmem⟩ := copyKernelEntries_spec srcPhys d (List.range' 768 256) σZ
  rw [← hσK] at hKpmm hKmem
  have hKrow : ∀ a b, a ≠ d → σK.mem a b = σ0.mem a b := by
    intro a b ha
    rw [hKmem a b (Or.inl ha)]
    show zeroFrame σ0.mem d a b = σ0.mem a b
    unfold zeroFrame
    rw [if_neg ha]
  have hKp : σK.pmm = P1 := by
    rw [hKpmm]
  have hmem0 : σK.mem srcPhys 0 = pte0 := by
    rw [hKrow srcPhys 0 hsd, hpde]
  have hallocK : pmm_alloc_block σK.pmm = (P2, some t) := by
    rw [hKp]
    exact halloc2
  have hstep := clonePdeStep_present srcPhys d 0 σK P2 t
    (by rw [hmem0]; exact hpres) hallocK hst hsd
  rw [hmem0, hT] at hstep
  set σL := clonePteLoop T t (List.range 1024)
    (VmmState.mk (writeWord (zeroFrame σK.mem t) d 0 (t ||| (pte0 &&& 0x0FFF))) P2)
    with hσL
  have habs3 : ∀ i ∈ List.range' 1 767, σL.mem srcPhys i &&& I86_PTE_PRESENT = 0 := by
    intro i hi
    obtain ⟨h1i, h2i⟩ := List.mem_range'_1.mp hi
    have hmem : σL.mem srcPhys i = σ0.mem srcPhys i := by
      rw [hσL]
      rw [clonePteLoop_mem_other T t (List.range 1024) _ srcPhys i
        (fun hc => hTs hc.symm) hst]
      have h1 : writeWord (zeroFrame σK.mem t) d 0 (t ||| (pte0 &&& 0x0FFF))
          srcPhys i = zeroFrame σK.mem t srcPhys i := by
        unfold writeWord
        rw [if_neg (fun hc => hsd hc.1)]
      have h2 : zeroFrame σK.mem t srcPhys i = σK.mem srcPhys i := by
        unfold zeroFrame
        rw [if_neg hst]
      show writeWord (zeroFrame σK.mem t) d 0 (t ||| (pte0 &&& 0x0FFF))
        srcPhys i = σ0.mem srcPhys i
      rw [h1, h2, hKrow srcPhys i hsd]
    rw [hmem, habs i h1i (by omega)]
    decide
  have hrest : clonePdeLoop srcPhys d (List.range' 1 767) σL = (σL, true) :=
    clonePdeLoop_absent srcPhys d (List.range' 1 767) σL habs3
  have hr : List.range 768 = 0 :: List.range' 1 767 := by
    rw [List.range_eq_range']
    rfl
  have hloop : clonePdeLoop srcPhys d (List.range 768) σK = (σL, true) := by
    rw [hr]
    unfold clonePdeLoop
    rw [hstep]
    exact hrest
  unfold vmm_clone_directory
  rw [halloc1]
  dsimp only
  rw [← hσZ, ← hσK, hloop]

/-- C1 counterexample: on a directory whose single present user PTE is
read-only (Present|User, value 20485 = 0x5005), vmm_clone_directory
succeeds (new directory frame 24576) but sets the COW bit in NEITHER the
source PTE nor the destination PTE - both stay exactly 20485, whose COW
bit (0x200) is 0 - refuting the claim that every present user PTE gets
Writable cleared and COW set in both src and dst. -/
theorem clone_keeps_readonly_pte_without_cow :
    (vmm_clone_directory σro 12288).2 = some 24576 ∧
    (vmm_clone_directory σro 12288).1.mem 16384 0 = 20485 ∧
    (vmm_clone_directory σro 12288).1.mem 28672 0 = 20485 ∧
    20485 &&& I86_PTE_PRESENT ≠ 0 ∧ 20485 &&& I86_PTE_COW = 0 := by
  have halloc1 : pmm_alloc_block σro.pmm = (pmmRo1, some 24576) := rfl
  have halloc2 : pmm_alloc_block pmmRo1 = (pmmRo2, some 28672) := rfl
  have habs : ∀ i, 1 ≤ i → i < 768 → σro.mem 12288 i = 0 := by
    intro i h1 h2
    have hne : ¬ i = 0 := by omega
    simp [σro, hne]
  have hrun := clone_run_single σro 12288 24576 28672 16384 16389 pmmRo1 pmmRo2
    halloc1 halloc2 (by decide) (by decide) rfl (by decide) (by decide) (by decide) habs
  obtain ⟨hKpmm, hKmem⟩ := copyKernelEntries_spec 12288 24576 (List.range' 768 256)
    (VmmState.mk (zeroFrame σro.mem 24576) pmmRo1)
  have hKm : (copyKernelEntries 12288 24576 (List.range' 768 256)
      (VmmState.mk (zeroFrame σro.mem 24576) pmmRo1)).mem 16384 0 = 20485 := by
    rw [hKmem 16384 0 (Or.inl (by decide)), mk_mem_eval,
      zeroFrame_ne _ _ _ _ (by decide : (16384:Nat) ≠ 24576)]
    rfl
  have hσ2m : (VmmState.mk (writeWord (zeroFrame (copyKernelEntries 12288 24576
      (List.range' 768 256) (VmmState.mk (zeroFrame σro.mem 24576) pmmRo1)).mem 28672)
      24576 0 (28672 ||| (16389 &&& 0x0FFF))) pmmRo2).mem 16384 0 = 20485 := by
    rw [mk_mem_eval,
      writeWord_ne _ _ _ _ _ _ (by decide : ¬((16384:Nat) = 24576 ∧ (0:Nat) = 0)),
      zeroFrame_ne _ _ _ _ (by decide : (16384:Nat) ≠ 28672)]
    exact hKm
  have hvals := clonePteLoop_values 16384 28672 (by decide) (List.range 1024)
    (VmmState.mk (writeWord (zeroFrame (copyKernelEntries 12288 24576
      (List.range' 768 256) (VmmState.mk (zeroFrame σro.mem 24576) pmmRo1)).mem 28672)
      24576 0 (28672 ||| (16389 &&& 0x0FFF))) pmmRo2)
    (List.nodup_range 1024) 0 (List.mem_range.mpr (by decide))
    (by rw [hσ2m]; decide) (by rw [hσ2m]; decide)
  rw [hσ2m] at hvals
  have hct : cowTransform 20485 = 20485 := by decide
  rw [hct] at hvals
  have hfst : (vmm_clone_directory σro 12288).1 = clonePteLoop 16384 28672
      (List.range 1024)
      (VmmState.mk (writeWord (zeroFrame (copyKernelEntries 12288 24576
        (List.range' 768 256) (VmmState.mk (zeroFrame σro.mem 24576) pmmRo1)).mem 28672)
        24576 0 (28672 ||| (16389 &&& 0x0FFF))) pmmRo2) := by
    rw [hrun]
  refine ⟨?_, ?_, ?_, by decide, by decide⟩
  · rw [hrun]
  · exact (congrArg (fun s => s.mem 16384 0) hfst).trans hvals.1
  · exact (congrArg (fun s => s.mem 28672 0) hfst).trans hvals.2

/-- Witness: on σrw (single present user PTE 20487 = Present|Writable|User
over frame 20480), the clone theorem applies with every hypothesis
discharged concretely: the source PTE ends as 20997 (COW set, Writable
cleared) and the frame's refcount grows from 1 to 2. -/
theorem vmm_clone_directory_cow_witness :
    (vmm_clone_directory σrw 12288).1.mem 16384 0 &&& I86_PTE_COW ≠ 0 ∧
    (vmm_clone_directory σrw 12288).1.mem 16384 0 &&& I86_PTE_WRITABLE = 0 ∧
    (vmm_clone_directory σrw 12288).1.pmm.refs 5 = σrw.pmm.refs 5 + 1 := by
  have habs : ∀ i, 1 ≤ i → i < 768 → σrw.mem 12288 i = 0 := by
    intro i h1 h2
    have hne : ¬ i = 0 := by omega
    simp [σrw, hne]
  have hrun := clone_run_single σrw 12288 24576 28672 16384 16389 pmmRo1 pmmRo2
    rfl rfl (by decide) (by decide) rfl (by decide) (by decide) (by decide) habs
  have hpres : ∀ i, i ≠ 0 → σrw.mem 12288 i = 0 := by
    intro i h
    simp [σrw, h]
  have hp16 : ∀ j, j ≠ 0 → σrw.mem 16384 j = 0 := by
    intro j h
    simp [σrw, h]
  obtain ⟨-, -, hmain⟩ := vmm_clone_directory_cow σrw
    (clonePteLoop 16384 28672 (List.range 1024)
      (VmmState.mk (writeWord (zeroFrame (copyKernelEntries 12288 24576
        (List.range' 768 256) (VmmState.mk (zeroFrame σrw.mem 24576) pmmRo1)).mem 28672)
        24576 0 (28672 ||| (16389 &&& 0x0FFF))) pmmRo2))
    12288 24576
    (by decide) (by decide)
    (by
      intro i hi hp
      by_cases h0 : i = 0
      · subst h0
        exact ⟨by decide, by decide⟩
      · rw [hpres i h0] at hp
        exact absurd (by decide) hp)
    (by
      intro i hi i2 hi2 hne hp hp2
      by_cases h1 : i = 0
      · by_cases h2 : i2 = 0
        · exact absurd (h1.trans h2.symm) hne
        · rw [hpres i2 h2] at hp2
          exact absurd (by decide) hp2
      · rw [hpres i h1] at hp
        exact absurd (by decide) hp)
    (by
      intro i hi hp j hj hjp
      by_cases h0 : i = 0
      · subst h0
        rw [(by decide : σrw.mem 12288 0 &&& 0xFFFFF000 = 16384)] at hjp ⊢
        by_cases hj0 : j = 0
        · subst hj0
          exact ⟨by decide, by decide⟩
        · rw [hp16 j hj0] at hjp
          exact absurd (by decide) hjp
      · rw [hpres i h0] at hp
        exact absurd (by decide) hp)
    (by
      intro i1 hi1 hp1 j1 hj1 hjp1 i2 hi2 hp2 j2 hj2 hjp2 hne
      by_cases h1 : i1 = 0
      · subst h1
        rw [(by decide : σrw.mem 12288 0 &&& 0xFFFFF000 = 16384)] at hjp1
        by_cases hj10 : j1 = 0
        · subst hj10
          by_cases h2 : i2 = 0
          · subst h2
            rw [(by decide : σrw.mem 12288 0 &&& 0xFFFFF000 = 16384)] at hjp2
            by_cases hj20 : j2 = 0
            · subst hj20
              exact absurd ⟨rfl, rfl⟩ hne
            · rw [hp16 j2 hj20] at hjp2
              exact absurd (by decide) hjp2
          · rw [hpres i2 h2] at hp2
            exact absurd (by decide) hp2
        · rw [hp16 j1 hj10] at hjp1
          exact absurd (by decide) hjp1
      · rw [hpres i1 h1] at hp1
        exact absurd (by decide) hp1)
    hrun
  obtain ⟨-, hE2⟩ := hmain 0 (by decide) (by decide)
  obtain ⟨ha, -, hc⟩ := hE2 0 (by decide) (by decide)
  have e1 : σrw.mem 12288 0 &&& 0xFFFFF000 = 16384 := by decide
  rw [e1] at ha hc
  have e2 : σrw.mem 16384 0 = 20487 := rfl
  rw [e2] at ha hc
  have e3 : cowTransform 20487 = 20997 := by decide
  rw [e3] at ha
  have e4 : (20487 &&& I86_PTE_FRAME) / 4096 = 5 := by decide
  rw [e4] at hc
  have hfst : (vmm_clone_directory σrw 12288).1 = clonePteLoop 16384 28672
      (List.range 1024)
      (VmmState.mk (writeWord (zeroFrame (copyKernelEntries 12288 24576
        (List.range' 768 256) (VmmState.mk (zeroFrame σrw.mem 24576) pmmRo1)).mem 28672)
        24576 0 (28672 ||| (16389 &&& 0x0FFF))) pmmRo2) := by
    rw [hrun]
  have hmem : (vmm_clone_directory σrw 12288).1.mem 16384 0 = 20997 :=
    (congrArg (fun s => s.mem 16384 0) hfst).trans ha
  have hrefs : (vmm_clone_directory σrw 12288).1.pmm.refs 5 = σrw.pmm.refs 5 + 1 :=
    (congrArg (fun s => s.pmm.refs 5) hfst).trans hc
  refine ⟨?_, ?_, hrefs⟩
  · rw [hmem]
    decide
  · rw [hmem]
    decide
